import Mathlib

/-!
Verification of the knowledge-base retrieval pipeline of the consultingos
repository: chunking engine (`apps/knowledgebase/services/chunking.py`),
embedding client (`embedding.py`), vector store (`vector_store.py`),
RAG orchestrator (`rag.py`), document processing state machine
(`processing.py`) and the collection count maintenance (`models.py`).

Text is modelled as `List Char`; the fallible collaborators (text
extraction, embedding HTTP calls, the vector-store client, the generation
model) are modelled as explicit parameters returning `Except`/outcome
values, exactly at the call boundaries the Python code uses.  Python
regular expressions are hand-compiled to scanners over `List Char`;
scanners that walk the text use an explicit fuel argument (always called
with `length + 1`, enough to finish).  Character classes follow the code's
classes (ASCII plus the German letters named in the regexes).
-/

set_option maxHeartbeats 4000000

/-! ### Python string primitives -/

/-- Python whitespace for `str.strip` / regex `\s` (ASCII range). -/
def pyIsSpace (c : Char) : Bool :=
  c = ' ' || c = '\t' || c = '\n' || c = '\r' || c = Char.ofNat 11 || c = Char.ofNat 12

/-- `str.strip()`. -/
def pyStrip (l : List Char) : List Char :=
  ((l.dropWhile pyIsSpace).reverse.dropWhile pyIsSpace).reverse

/-- `text.split('\n')` (keeps empty pieces). -/
def splitNL : List Char → List (List Char)
  | [] => [[]]
  | c :: cs =>
    if c = '\n' then [] :: splitNL cs
    else
      match splitNL cs with
      | [] => [[c]]
      | p :: ps => (c :: p) :: ps

/-- `'\n'.join(...)`. -/
def joinNL (ls : List (List Char)) : List Char :=
  List.intercalate ['\n'] ls

/-- `'\n\n'.join(...)`. -/
def joinBlank (ls : List (List Char)) : List Char :=
  List.intercalate ['\n', '\n'] ls

/-- `' '.join(...)`. -/
def joinSp (ls : List (List Char)) : List Char :=
  List.intercalate [' '] ls

/-- `str.split()` with no argument: split on whitespace runs, no empties. -/
def pySplitWsGo (fuel : Nat) (l : List Char) : List (List Char) :=
  match fuel with
  | 0 => []
  | fuel + 1 =>
    let l' := l.dropWhile pyIsSpace
    match l' with
    | [] => []
    | _ :: _ =>
      let w := l'.takeWhile (fun c => !pyIsSpace c)
      w :: pySplitWsGo fuel (l'.drop w.length)

def pySplitWs (l : List Char) : List (List Char) :=
  pySplitWsGo (l.length + 1) l

/-! ### Chunking engine (`chunking.py`) -/

def MIN_CHUNK_SIZE : Nat := 50
def MAX_CHUNK_SIZE : Nat := 4000

/-- `[Seite ` marker head used by `extract_page_number` / the sub pattern. -/
def seiteMarker : List Char := '[' :: 'S' :: 'e' :: 'i' :: 't' :: 'e' :: ' ' :: []

def digitsToNat (ds : List Char) : Nat :=
  ds.foldl (fun n c => 10 * n + (c.toNat - '0'.toNat)) 0

/-- Try to match `\[Seite (\d+)\]` at the head of `l`; on success return the
page number and the remainder after the closing bracket. -/
def trySeite (l : List Char) : Option (Nat × List Char) :=
  if seiteMarker.isPrefixOf l then
    let rest := l.drop seiteMarker.length
    let ds := rest.takeWhile Char.isDigit
    match ds, rest.drop ds.length with
    | [], _ => none
    | _ :: _, ']' :: rest' => some (digitsToNat ds, rest')
    | _ :: _, _ => none
  else none

/-- `re.search(r'\[Seite (\d+)\]', text)`: first match's page number. -/
def extractPageGo (fuel : Nat) (l : List Char) : Option Nat :=
  match fuel, l with
  | 0, _ => none
  | _, [] => none
  | fuel + 1, c :: cs =>
    match trySeite (c :: cs) with
    | some (n, _) => some n
    | none => extractPageGo fuel cs

def extract_page_number (l : List Char) : Option Nat :=
  extractPageGo (l.length + 1) l

/-- `re.sub(r'\[Seite \d+\]\s*', '', content)`. -/
def subSeiteGo : Nat → List Char → List Char → List Char
  | 0, acc, l => acc.reverse ++ l
  | fuel + 1, acc, l =>
    match trySeite l with
    | some (_, rest) => subSeiteGo fuel acc (rest.dropWhile pyIsSpace)
    | none =>
      match l with
      | [] => acc.reverse
      | c :: cs => subSeiteGo fuel (c :: acc) cs

def subSeite (l : List Char) : List Char :=
  subSeiteGo (l.length + 1) [] l

/-- Uppercase letters of the heading regexes: `[A-ZÄÖÜ]`. -/
def pyIsUpperChar (c : Char) : Bool :=
  ('A' ≤ c && c ≤ 'Z') || c = 'Ä' || c = 'Ö' || c = 'Ü'

/-- Lowercase letters of the heading regexes: `[a-zäöüß]`. -/
def pyIsLowerChar (c : Char) : Bool :=
  ('a' ≤ c && c ≤ 'z') || c = 'ä' || c = 'ö' || c = 'ü' || c = 'ß'

/-- `str.isupper()`: at least one cased character and no lowercase one. -/
def pyIsUpperStr (l : List Char) : Bool :=
  l.any (fun c => pyIsUpperChar c || pyIsLowerChar c) && l.all (fun c => !pyIsLowerChar c)

/-- `re.match(r'^#{1,6}\s+.+$', line)` on a line without newlines. -/
def matchMarkdownHeading (l : List Char) : Bool :=
  let k := (l.takeWhile (· = '#')).length
  1 ≤ k && k ≤ 6 &&
    (match l.drop k with
     | [] => false
     | c :: rest => pyIsSpace c && rest.length ≥ 1)

/-- `\s+[A-ZÄÖÜ]` at the head of `r` (a whitespace run then an uppercase). -/
def wsThenUpper (r : List Char) : Bool :=
  let ws := r.takeWhile pyIsSpace
  ws.length ≥ 1 &&
    (match r.drop ws.length with
     | [] => false
     | c :: _ => pyIsUpperChar c)

/-- `(\.\d+)*\.?\s+[A-ZÄÖÜ]` continuation of the numbered-section regex,
with full backtracking (disjunction over the alternatives). -/
def numberedTailGo (fuel : Nat) (r : List Char) : Bool :=
  match fuel with
  | 0 => false
  | fuel + 1 =>
    let viaGroup :=
      match r with
      | '.' :: r' =>
        let ds := r'.takeWhile Char.isDigit
        ds.length ≥ 1 && numberedTailGo fuel (r'.drop ds.length)
      | _ => false
    let viaOptDot :=
      (match r with
       | '.' :: r' => wsThenUpper r'
       | _ => false) || wsThenUpper r
    viaGroup || viaOptDot

/-- `re.match(r'^\d+(\.\d+)*\.?\s+[A-ZÄÖÜ]', line)`. -/
def matchNumberedHeading (l : List Char) : Bool :=
  let ds := l.takeWhile Char.isDigit
  ds.length ≥ 1 && numberedTailGo (l.length + 1) (l.drop ds.length)

/-- `re.match(r'^[A-ZÄÖÜ][A-ZÄÖÜa-zäöüß\s]{2,60}:$', line)`. -/
def matchTitleColon (l : List Char) : Bool :=
  match l with
  | [] => false
  | c :: rest =>
    pyIsUpperChar c &&
      (match rest.getLast? with
       | some ':' =>
         let mid := rest.dropLast
         2 ≤ mid.length && mid.length ≤ 60 &&
           mid.all (fun d => pyIsUpperChar d || pyIsLowerChar d || pyIsSpace d)
       | _ => false)

def pyIsPunctEnd (c : Char) : Bool :=
  c = '.' || c = '!' || c = '?' || c = ',' || c = ';' || c = ':'

def titleWordHit (w : List Char) : Bool :=
  match w with
  | [] => false
  | c :: _ => pyIsUpperChar c || w.length ≤ 3

/-- The short-Title-Case heuristic of `is_heading`.  The source compares
`title_words >= len(words) * 0.6` in binary floating point; for the
reachable `1 ≤ len(words) ≤ 8` this agrees exactly with
`10 * title_words ≥ 6 * len(words)`. -/
def shortTitleCase (l : List Char) : Bool :=
  l.length < 80 &&
    (match l with
     | [] => false
     | c :: _ => pyIsUpperChar c) &&
    (match l.getLast? with
     | some c => !pyIsPunctEnd c
     | none => false) &&
    (let ws := pySplitWs l
     1 ≤ ws.length && ws.length ≤ 8 &&
       10 * (ws.countP titleWordHit) ≥ 6 * ws.length)

/-- `is_heading` from `chunking.py`. -/
def is_heading (line0 : List Char) : Bool :=
  let l := pyStrip line0
  if l.isEmpty || l.length > 200 then false
  else
    matchMarkdownHeading l ||
    matchNumberedHeading l ||
    (pyIsUpperStr l && 3 < l.length && l.length < 80) ||
    matchTitleColon l ||
    shortTitleCase l

/-- `is_list_start` from `chunking.py`. -/
def is_list_start (line0 : List Char) : Bool :=
  let l := pyStrip line0
  (match l with
   | c :: d :: _ => (c = '-' || c = '*' || c = '•') && pyIsSpace d
   | _ => false) ||
  (let ds := l.takeWhile Char.isDigit
   ds.length ≥ 1 &&
     (match l.drop ds.length with
      | c :: d :: _ => (c = '.' || c = ')' || c = ']') && pyIsSpace d
      | _ => false)) ||
  (match l with
   | a :: c :: d :: _ =>
     ('a' ≤ a && a ≤ 'z') && (c = '.' || c = ')' || c = ']') && pyIsSpace d
   | _ => false)

/-- `is_code_block_marker`: stripped line starts with three backticks. -/
def is_code_block_marker (line : List Char) : Bool :=
  (List.replicate 3 (Char.ofNat 96)).isPrefixOf (pyStrip line)

/-- A semantic unit: the dicts `{'type', 'content', 'has_heading'}` of
`chunking.py` (`content` is a list of lines). -/
structure SemUnit where
  utype : String
  content : List (List Char)
  has_heading : Bool
deriving DecidableEq

/-- Loop state of `split_into_semantic_units`. -/
structure SegState where
  units : List SemUnit
  cur : SemUnit
  inCode : Bool
  consec : Nat
deriving DecidableEq

def segInit : SegState :=
  ⟨[], ⟨"paragraph", [], false⟩, false, 0⟩

def segAppendLine (u : SemUnit) (line : List Char) : SemUnit :=
  { u with content := u.content ++ [line] }

/-- One iteration of the line loop of `split_into_semantic_units`. -/
def segStep (st : SegState) (line : List Char) : SegState :=
  let stripped := pyStrip line
  if is_code_block_marker line then
    if st.inCode then
      { st with cur := segAppendLine st.cur line, inCode := false }
    else
      { st with
        units := if st.cur.content ≠ [] then st.units ++ [st.cur] else st.units,
        cur := ⟨"code", [line], false⟩,
        inCode := true }
  else if st.inCode then
    { st with cur := segAppendLine st.cur line }
  else if stripped.isEmpty then
    let consec' := st.consec + 1
    if consec' ≥ 2 ∧ st.cur.content ≠ [] then
      { st with
        units := st.units ++ [st.cur],
        cur := ⟨"paragraph", [], false⟩,
        consec := consec' }
    else
      { st with consec := consec' }
  else
    let st := { st with consec := 0 }
    if is_heading stripped then
      { st with
        units := if st.cur.content ≠ [] then st.units ++ [st.cur] else st.units,
        cur := ⟨"section", [line], true⟩ }
    else if is_list_start stripped then
      if st.cur.utype ≠ "list" ∧ ¬ st.cur.has_heading then
        { st with
          units := if st.cur.content ≠ [] then st.units ++ [st.cur] else st.units,
          cur := ⟨"list", [line], false⟩ }
      else
        { st with cur := segAppendLine st.cur line }
    else if st.cur.utype = "list" then
      if (' ' :: ' ' :: []).isPrefixOf line ∨ ('\t' :: []).isPrefixOf line then
        { st with cur := segAppendLine st.cur line }
      else
        { st with
          units := st.units ++ [st.cur],
          cur := ⟨"paragraph", [line], false⟩ }
    else
      { st with cur := segAppendLine st.cur line }

/-- `split_into_semantic_units` from `chunking.py`. -/
def split_into_semantic_units (text : List Char) : List SemUnit :=
  let st := (splitNL text).foldl segStep segInit
  if st.cur.content ≠ [] then st.units ++ [st.cur] else st.units

/-- Loop body of `merge_small_units` (state: output list and the buffer). -/
def mergeStep (acc : List SemUnit × Option SemUnit) (u : SemUnit) :
    List SemUnit × Option SemUnit :=
  let contentLen := (joinNL u.content).length
  match acc with
  | (merged, none) =>
    if contentLen < MIN_CHUNK_SIZE ∧ ¬ u.has_heading then (merged, some u)
    else (merged ++ [u], none)
  | (merged, some b) =>
    let bufferLen := (joinNL b.content).length
    let combined := bufferLen + contentLen + 2
    if combined < MAX_CHUNK_SIZE then
      let b' : SemUnit :=
        { utype := if u.has_heading then u.utype else b.utype,
          content := b.content ++ [[]] ++ u.content,
          has_heading := b.has_heading || u.has_heading }
      if (joinNL b'.content).length ≥ MIN_CHUNK_SIZE then (merged ++ [b'], none)
      else (merged, some b')
    else
      if contentLen < MIN_CHUNK_SIZE ∧ ¬ u.has_heading then (merged ++ [b], some u)
      else (merged ++ [b] ++ [u], none)

/-- Final buffer flush of `merge_small_units`. -/
def mergeFlush : List SemUnit × Option SemUnit → List SemUnit
  | (merged, none) => merged
  | (merged, some b) =>
    match merged.getLast? with
    | some last =>
      if (joinNL last.content).length + (joinNL b.content).length < MAX_CHUNK_SIZE then
        merged.dropLast ++ [{ last with content := last.content ++ [[]] ++ b.content }]
      else merged ++ [b]
    | none => merged ++ [b]

/-- `merge_small_units` from `chunking.py`. -/
def merge_small_units (units : List SemUnit) : List SemUnit :=
  match units with
  | [] => []
  | _ => mergeFlush (units.foldl mergeStep ([], none))

/-- `re.split(r'(?<=[.!?])\s+', para)`: split at whitespace runs preceded
by a sentence-ending character.  `acc` holds the reversed current piece,
so its head is the character before the scan position. -/
def sentSplitGo (fuel : Nat) (acc : List Char) (l : List Char) : List (List Char) :=
  match fuel with
  | 0 => [acc.reverse ++ l]
  | fuel + 1 =>
    match l with
    | [] => [acc.reverse]
    | c :: cs =>
      if pyIsSpace c && (match acc with
                         | p :: _ => p = '.' || p = '!' || p = '?'
                         | [] => false) then
        let run := (c :: cs).takeWhile pyIsSpace
        acc.reverse :: sentSplitGo fuel [] ((c :: cs).drop run.length)
      else
        sentSplitGo fuel (c :: acc) cs

def reSplitSentence (l : List Char) : List (List Char) :=
  sentSplitGo (l.length + 1) [] l

/-- `re.split(r'\n\s*\n', content)`: a separator is a newline followed by
a greedy whitespace run that still contains a newline; the separator ends
at the last newline of that run. -/
def blankSplitGo (fuel : Nat) (acc : List Char) (l : List Char) : List (List Char) :=
  match fuel with
  | 0 => [acc.reverse ++ l]
  | fuel + 1 =>
    match l with
    | [] => [acc.reverse]
    | c :: cs =>
      if c = '\n' then
        let run := cs.takeWhile pyIsSpace
        if '\n' ∈ run then
          let k := run.length - 1 - (run.reverse.findIdx (· = '\n'))
          acc.reverse :: blankSplitGo fuel [] (cs.drop (k + 1))
        else blankSplitGo fuel (c :: acc) cs
      else blankSplitGo fuel (c :: acc) cs

def reSplitBlank (l : List Char) : List (List Char) :=
  blankSplitGo (l.length + 1) [] l

/-- State of the paragraph loop in `split_oversized_unit`. -/
structure ParaState where
  results : List SemUnit
  cur : List (List Char)
  curLen : Nat
deriving DecidableEq

/-- Sentence loop of `split_oversized_unit` (the `para_len > MAX` branch).
Returns the updated results plus the final `sent_chunk`/`sent_len`. -/
def sentLoop (sents : List (List Char)) (sc : List (List Char)) (slen : Nat)
    (res : List SemUnit) : List SemUnit × List (List Char) × Nat :=
  match sents with
  | [] => (res, sc, slen)
  | s :: rest =>
    if slen + s.length + 1 ≤ MAX_CHUNK_SIZE then
      sentLoop rest (sc ++ [s]) (slen + s.length + 1) res
    else
      let res' :=
        if sc ≠ [] then res ++ [⟨"paragraph", [joinSp sc], false⟩] else res
      let first := if s.length ≤ MAX_CHUNK_SIZE then s else s.take MAX_CHUNK_SIZE
      sentLoop rest [first] first.length res'

/-- `results.append` of the current chunk when the paragraph loop of
`split_oversized_unit` hits a paragraph that does not fit. -/
def paraFlush (utype : String) (uhead : Bool) (st : ParaState) : List SemUnit :=
  if st.cur ≠ [] then
    st.results ++ [⟨utype, [joinBlank st.cur], uhead ∧ st.results.length = 0⟩]
  else st.results

/-- Body of the paragraph loop of `split_oversized_unit` for one stripped,
non-blank paragraph `p`. -/
def paraStep (utype : String) (uhead : Bool) (st : ParaState)
    (p : List Char) : ParaState :=
  if st.curLen + p.length + 2 ≤ MAX_CHUNK_SIZE then
    { st with cur := st.cur ++ [p], curLen := st.curLen + p.length + 2 }
  else
    let res1 := paraFlush utype uhead st
    if p.length > MAX_CHUNK_SIZE then
      match sentLoop (reSplitSentence p) [] 0 res1 with
      | (res2, sc, _) =>
        if sc ≠ [] then ⟨res2, [joinSp sc], (joinSp sc).length⟩
        else ⟨res2, [], 0⟩
    else ⟨res1, [p], p.length⟩

/-- Paragraph loop of `split_oversized_unit`. -/
def paraLoop (utype : String) (uhead : Bool) (paras : List (List Char))
    (st : ParaState) : ParaState :=
  match paras with
  | [] => st
  | p0 :: rest =>
    let p := pyStrip p0
    if p.isEmpty then paraLoop utype uhead rest st
    else paraLoop utype uhead rest (paraStep utype uhead st p)

/-- `split_oversized_unit` from `chunking.py`. -/
def split_oversized_unit (u : SemUnit) : List SemUnit :=
  let content := joinNL u.content
  if content.length ≤ MAX_CHUNK_SIZE then [u]
  else
    let st := paraLoop u.utype u.has_heading (reSplitBlank content) ⟨[], [], 0⟩
    if st.cur ≠ [] then st.results ++ [⟨u.utype, [joinBlank st.cur], false⟩]
    else st.results

/-- An output chunk: dict `{'content', 'page_number'}`. -/
structure Chunk where
  content : List Char
  page_number : Option Nat
deriving DecidableEq

/-- Step 4 of `chunk_document`: page-marker handling for one final unit. -/
def finalizeUnit (u : SemUnit) : Option Chunk :=
  let content := pyStrip (joinNL u.content)
  if content.isEmpty then none
  else
    let page := extract_page_number content
    let clean := pyStrip (subSeite content)
    if clean.isEmpty then none
    else some ⟨clean, page⟩

/-- `chunk_document` from `chunking.py`. -/
def chunk_document (text : List Char) : List Chunk :=
  if text.isEmpty || (pyStrip text).isEmpty then []
  else
    let units := split_into_semantic_units text
    let merged := merge_small_units units
    let finals := (merged.map split_oversized_unit).flatten
    finals.filterMap finalizeUnit

/-! ### Vector store (`vector_store.py`)

The ChromaDB collection is modelled as a list of entries; the cosine
distance computed by the index is an arbitrary function parameter `dist`,
and the index's `query` (which returns the `n_results` nearest entries by
increasing distance) is modelled by sorting the entries by distance and
taking `n_results`. -/

/-- One vector entry: id, embedding, stored text and the metadata written
by `add_chunks_to_collection`. -/
structure ChromaEntry where
  cid : List Char
  embedding : List ℚ
  document : List Char
  document_id : Nat
  chunk_index : Nat
  page_number : Nat
deriving DecidableEq

/-- Metadata written by `add_chunks_to_collection` for chunk `i` of a
document: `page_number` is `chunk.get('page_number') or 0`, i.e. `0` when
the chunk has no page (and also when the page is `0`). -/
def chunkMetaPage (c : Chunk) : Nat :=
  match c.page_number with
  | none => 0
  | some p => p

/-- The entries upserted by `add_chunks_to_collection` for a document's
chunks (the fresh uuid suffixes are a parameter). -/
def addChunksEntries (document_id : Nat) (chunks : List Chunk)
    (embeddings : List (List ℚ)) (uuids : List (List Char)) : List ChromaEntry :=
  (List.zip chunks (List.zip embeddings uuids)).enum.map fun p =>
    { cid := "doc_".toList ++ (toString document_id).toList ++ "_chunk_".toList ++
        (toString p.1).toList ++ "_".toList ++ p.2.2.2,
      embedding := p.2.2.1,
      document := p.2.1.content,
      document_id := document_id,
      chunk_index := p.1,
      page_number := chunkMetaPage p.2.1 }

/-- `add_chunks_to_collection`: append the batch to the collection. -/
def add_chunks_to_collection (store : List ChromaEntry) (document_id : Nat)
    (chunks : List Chunk) (embeddings : List (List ℚ))
    (uuids : List (List Char)) : List ChromaEntry :=
  store ++ addChunksEntries document_id chunks embeddings uuids

/-- `round(x, 3)` with round-half-to-even, as Python's `round`. -/
def pyRound3 (x : ℚ) : ℚ :=
  let y := x * 1000
  let n := Rat.floor y
  let r := y - n
  (if r < 1/2 then n else if 1/2 < r then n + 1 else if n % 2 = 0 then n else n + 1) / 1000

/-- Order on scored entries: by distance. -/
def distLE (a b : ChromaEntry × ℚ) : Prop := a.2 ≤ b.2

instance : DecidableRel distLE := fun a b => inferInstanceAs (Decidable (a.2 ≤ b.2))

instance : IsTotal (ChromaEntry × ℚ) distLE := ⟨fun a b => le_total a.2 b.2⟩

instance : IsTrans (ChromaEntry × ℚ) distLE :=
  ⟨fun _ _ _ hab hbc => le_trans hab hbc⟩

/-- The chroma index's `query`: entries paired with their distance to the
query embedding, by increasing distance, the `n` nearest. -/
def chromaQuery (dist : List ℚ → List ℚ → ℚ) (store : List ChromaEntry)
    (q : List ℚ) (n : Nat) : List (ChromaEntry × ℚ) :=
  (List.insertionSort distLE (store.map fun e => (e, dist e.embedding q))).take n

/-- A result row of `query_collection`. -/
structure RChunk where
  content : List Char
  document_id : Nat
  page_number : Nat
  chunk_index : Nat
  distance : ℚ
  similarity : ℚ
deriving DecidableEq

def toRChunk (p : ChromaEntry × ℚ) : RChunk :=
  { content := p.1.document,
    document_id := p.1.document_id,
    page_number := p.1.page_number,
    chunk_index := p.1.chunk_index,
    distance := p.2,
    similarity := pyRound3 (1 - p.2 / 2) }

/-- `query_collection` from `vector_store.py`: fetch up to `max_results`
candidates, keep those with `distance <= relevance_threshold`, and if
fewer than `min_results` remain while candidates exist, return the top
`min_results` candidates instead. -/
def queryCandidates (dist : List ℚ → List ℚ → ℚ) (store : List ChromaEntry)
    (query_embedding : List ℚ) (max_results : Nat) : List RChunk :=
  (chromaQuery dist store query_embedding max_results).map toRChunk

def query_collection (dist : List ℚ → List ℚ → ℚ) (store : List ChromaEntry)
    (query_embedding : List ℚ) (max_results : Nat) (relevance_threshold : ℚ)
    (min_results : Nat) : List RChunk :=
  let chunks := queryCandidates dist store query_embedding max_results
  let relevant := chunks.filter fun c => c.distance ≤ relevance_threshold
  if relevant.length < min_results ∧ chunks ≠ [] then chunks.take min_results
  else relevant

/-- `delete_document_chunks`: remove every entry of the document. -/
def delete_document_chunks (store : List ChromaEntry) (document_id : Nat) :
    List ChromaEntry :=
  store.filter fun e => ¬ e.document_id = document_id

/-! ### Embedding client (`embedding.py`)

`get_embeddings` batches the texts in groups of 50 and re-sorts every
batch response by the upstream-reported `index` before concatenation.
The upstream call is a parameter returning one `{embedding, index}` item
list per batch (the claim's success assumption). -/

structure EmbItem where
  embedding : List ℚ
  index : Nat
deriving DecidableEq

def EMB_BATCH_SIZE : Nat := 50

/-- The sort key of `sorted(data, key=lambda x: x.get('index', 0))`. -/
def idxLE (a b : EmbItem) : Prop := a.index ≤ b.index

instance : DecidableRel idxLE := fun a b => inferInstanceAs (Decidable (a.index ≤ b.index))

instance : IsTotal EmbItem idxLE := ⟨fun a b => Nat.le_total a.index b.index⟩

instance : IsTrans EmbItem idxLE := ⟨fun _ _ _ hab hbc => Nat.le_trans hab hbc⟩

/-- One batch: `sorted(data, key=lambda x: x.get('index', 0))` then the
embeddings in that order. -/
def embBatch (call : List (List Char) → List EmbItem)
    (batch : List (List Char)) : List (List ℚ) :=
  (List.insertionSort idxLE (call batch)).map (fun it => it.embedding)

/-- The batching loop of `get_embeddings`. -/
def embLoop (call : List (List Char) → List EmbItem) :
    List (List Char) → List (List ℚ)
  | [] => []
  | t :: ts =>
    embBatch call ((t :: ts).take EMB_BATCH_SIZE) ++
      embLoop call ((t :: ts).drop EMB_BATCH_SIZE)
termination_by ts => ts.length + 1
decreasing_by
  simp [EMB_BATCH_SIZE]
  omega

/-- `get_embeddings` from `embedding.py` (the api-key check, then the
batch loop; upstream failures abort the whole call, modelled by the claim
hypothesis that every batch call succeeds). -/
def get_embeddings (api_key : List Char) (call : List (List Char) → List EmbItem)
    (texts : List (List Char)) : Except (List Char) (List (List ℚ)) :=
  if api_key.isEmpty then .error "OpenRouter API key not configured".toList
  else .ok (embLoop call texts)

/-! ### RAG orchestrator (`rag.py`) -/

structure ChatMsg where
  role : List Char
  content : List Char
deriving DecidableEq

/-- Outcome of the LLM HTTP call (`rag.py` lines 123-157): the extracted
message contents on HTTP 200, or the failure kinds the code handles. -/
inductive LlmOutcome where
  | success (choices : List (List Char))
  | httpError (status : Nat)
  | timeout
  | exn (msg : List Char)
deriving DecidableEq

/-- ` (Seite N)` suffix of a context header; `0` is falsy in Python, so a
page number of `0` produces no page info. -/
def pageInfo (page : Nat) : List Char :=
  if page = 0 then [] else " (Seite ".toList ++ (toString page).toList ++ ")".toList

/-- One `[Quelle i: name (Seite n)]\ncontent` context block. -/
def contextPart (i : Nat) (docName : List Char) (page : Nat)
    (content : List Char) : List Char :=
  "[Quelle ".toList ++ (toString (i + 1)).toList ++ ": ".toList ++ docName ++
    pageInfo page ++ "]\n".toList ++ content

/-- `content_preview`: first 300 characters, with an ellipsis if longer. -/
def contentPreview (content : List Char) : List Char :=
  if content.length > 300 then content.take 300 ++ "...".toList else content

/-- A source citation `{document_name, page_number, content_preview,
similarity}`. -/
structure SourceCit where
  document_name : List Char
  page_number : Nat
  content_preview : List Char
  similarity : ℚ
deriving DecidableEq

def mkSourceCit (resolve : Nat → List Char) (c : RChunk) : SourceCit :=
  { document_name := resolve c.document_id,
    page_number := c.page_number,
    content_preview := contentPreview c.content,
    similarity := c.similarity }

/-- The system message content (persona prompt plus context block). -/
def ragSystemContent (system_prompt context : List Char) : List Char :=
  system_prompt ++ "\n\nWICHTIG: Basiere deine Antworten auf den folgenden Dokumenten. Wenn du Informationen aus den Dokumenten verwendest, verweise auf die Quellen.\n\n=== DOKUMENT-KONTEXT ===\n".toList ++
    context ++ "\n=== ENDE KONTEXT ===\n\nBeantworte die Frage des Benutzers basierend auf den obigen Dokumenten. Wenn die Antwort nicht in den Dokumenten zu finden ist, sage das ehrlich.".toList

/-- History slice of `get_rag_response`:
`conversation.messages.order_by('created_at')[:10]` — the messages in
chronological order, sliced to the FIRST ten. -/
def ragHistory (conversation : Option (List ChatMsg)) : List ChatMsg :=
  match conversation with
  | none => []
  | some msgs => msgs.take 10

/-- The prompt message sequence of `get_rag_response` (lines 88-116):
system instruction, then the history slice, then the current question. -/
def ragMessages (systemContent : List Char) (conversation : Option (List ChatMsg))
    (question : List Char) : List ChatMsg :=
  ⟨"system".toList, systemContent⟩ ::
    (ragHistory conversation ++ [⟨"user".toList, question⟩])

/-- The sentinel answer returned when retrieval yields no chunks. -/
def noInfoSentinel : List Char :=
  "Ich konnte keine relevanten Informationen in den Dokumenten finden.".toList

/-- Expert fields used by `get_rag_response`. -/
structure ExpertIn where
  eid : Nat
  system_prompt : List Char
deriving DecidableEq

/-- `get_rag_response` from `rag.py`.  `dist`/`store` model the expert's
chroma collection, `embedQ` the outcome of embedding the question,
`resolve` the document-name lookup (`'Unbekannt'` when missing is already
applied by the caller-side model below), and `llm` the generation call.
Retrieval failures propagate as `.error`; generation failures are mapped
to answer strings, as in the source. -/
def get_rag_response (expert : ExpertIn) (question : List Char)
    (conversation : Option (List ChatMsg)) (api_key : List Char)
    (dist : List ℚ → List ℚ → ℚ) (store : List ChromaEntry)
    (embedQ : Except (List Char) (List ℚ)) (docName : Nat → Option (List Char))
    (llm : List ChatMsg → LlmOutcome) :
    Except (List Char) (List Char × List SourceCit) :=
  if api_key.isEmpty then .error "OpenRouter API key not configured".toList
  else
    match embedQ with
    | .error e => .error e
    | .ok query_embedding =>
      let chunks := query_collection dist store query_embedding 10 (1/2) 1
      if chunks.isEmpty then .ok (noInfoSentinel, [])
      else
        let resolve := fun did => (docName did).getD "Unbekannt".toList
        let source_chunks := chunks.map (mkSourceCit resolve)
        let context := List.intercalate "\n\n---\n\n".toList
          (chunks.enum.map fun p =>
            contextPart p.1 (resolve p.2.document_id) p.2.page_number p.2.content)
        let messages :=
          ragMessages (ragSystemContent expert.system_prompt context)
            conversation question
        match llm messages with
        | .success [] => .ok ("Keine Antwort vom Modell erhalten.".toList, source_chunks)
        | .success (c :: _) => .ok (c, source_chunks)
        | .httpError s =>
          .ok ("Fehler bei der Verarbeitung: ".toList ++ (toString s).toList, source_chunks)
        | .timeout => .ok ("Zeitüberschreitung bei der Anfrage.".toList, source_chunks)
        | .exn m => .ok ("Fehler: ".toList ++ m, source_chunks)

/-! ### Models and processing state machine (`models.py`, `processing.py`) -/

/-- `ExpertDocument` fields used by the pipeline. -/
structure DocRec where
  did : Nat
  status : List Char
  error_message : List Char
  page_count : Nat
  chunk_count : Nat
deriving DecidableEq

/-- `Expert` aggregate fields maintained by `update_counts`. -/
structure ExpertRec where
  document_count : Nat
  chunk_count : Nat
  is_indexed : Bool
deriving DecidableEq

/-- A relational `DocumentChunk` row. -/
structure ChunkRow where
  doc_id : Nat
  chunk_index : Nat
  content : List Char
  page_number : Option Nat
  chroma_id : List Char
deriving DecidableEq

/-- The relational state an expert's pipeline operates on. -/
structure KBState where
  expert : ExpertRec
  docs : List DocRec
  chunkRows : List ChunkRow
deriving DecidableEq

/-- `Expert.update_counts` (`models.py` lines 33-40): recompute
`document_count`/`chunk_count` over the completed documents and set
`is_indexed = chunk_count > 0`. -/
def update_counts (docs : List DocRec) : ExpertRec :=
  let completed := docs.filter fun d => d.status = "completed".toList
  let cc := (completed.map fun d => d.chunk_count).sum
  { document_count := completed.length, chunk_count := cc, is_indexed := 0 < cc }

def updDoc (docs : List DocRec) (docId : Nat) (g : DocRec → DocRec) : List DocRec :=
  docs.map fun d => if d.did = docId then g d else d

/-- The `except` handler of `process_document`: `status='failed'`,
`error_message=str(e)`. -/
def failDoc (st : KBState) (docId : Nat) (e : List Char) : KBState :=
  { st with docs := updDoc st.docs docId fun d =>
      { d with status := "failed".toList, error_message := e } }

/-- The chunk rows written by step 5 for the produced chunks and their
assigned chroma ids. -/
def mkChunkRows (docId : Nat) (chunks : List Chunk) (ids : List (List Char)) :
    List ChunkRow :=
  (List.zip chunks ids).enum.map fun p =>
    { doc_id := docId, chunk_index := p.1, content := p.2.1.content,
      page_number := p.2.1.page_number, chroma_id := p.2.2 }

/-- `process_document` from `processing.py`.  The collaborators are the
outcomes of the fallible steps: `extract` the text extraction (text and
page count), `embed` the embedding call on the chunk texts, `upsert` the
vector-store upsert (returning the chroma ids), `persist` the chunk-row
writes of step 5 (`.error (e, k)` = failed after writing `k` rows).  Any
step failure is caught: the document is marked failed with the
exception's message and nothing propagates.  On success the document is
completed and the expert counts are recomputed (step 7). -/
def process_document (st : KBState) (docId : Nat)
    (extract : Except (List Char) (List Char × Nat))
    (embed : List (List Char) → Except (List Char) (List (List ℚ)))
    (upsert : List Chunk → List (List ℚ) → Except (List Char) (List (List Char)))
    (persist : Except (List Char × Nat) Unit) : KBState :=
  match st.docs.find? fun d => d.did = docId with
  | none => st
  | some _ =>
    let st1 : KBState :=
      { st with docs := updDoc st.docs docId fun d =>
          { d with status := "processing".toList } }
    match extract with
    | .error e => failDoc st1 docId e
    | .ok (text, page_count) =>
      if (pyStrip text).isEmpty then
        failDoc st1 docId "Keine Textinhalte im Dokument gefunden".toList
      else
        let st2 : KBState :=
          { st1 with docs := updDoc st1.docs docId fun d =>
              { d with page_count := page_count } }
        let chunks := chunk_document text
        if chunks.isEmpty then
          failDoc st2 docId "Keine Chunks aus dem Dokument erstellt".toList
        else
          match embed (chunks.map fun c => c.content) with
          | .error e => failDoc st2 docId e
          | .ok embeddings =>
            match upsert chunks embeddings with
            | .error e => failDoc st2 docId e
            | .ok chroma_ids =>
              match persist with
              | .error (e, k) =>
                failDoc
                  { st2 with chunkRows :=
                      st2.chunkRows ++ (mkChunkRows docId chunks chroma_ids).take k }
                  docId e
              | .ok _ =>
                let st3 : KBState :=
                  { st2 with
                    chunkRows := st2.chunkRows ++ mkChunkRows docId chunks chroma_ids,
                    docs := updDoc st2.docs docId fun d =>
                      { d with chunk_count := chunks.length,
                               status := "completed".toList,
                               error_message := [] } }
                { st3 with expert := update_counts st3.docs }

/-- Observer of the pipeline body of `process_document`: the message of
the first failing step among 1-5, or `none` when every step succeeds.  It
follows the branch structure of `process_document` literally. -/
def pipelineError
    (extract : Except (List Char) (List Char × Nat))
    (embed : List (List Char) → Except (List Char) (List (List ℚ)))
    (upsert : List Chunk → List (List ℚ) → Except (List Char) (List (List Char)))
    (persist : Except (List Char × Nat) Unit) : Option (List Char) :=
  match extract with
  | .error e => some e
  | .ok (text, _) =>
    if (pyStrip text).isEmpty then
      some "Keine Textinhalte im Dokument gefunden".toList
    else
      let chunks := chunk_document text
      if chunks.isEmpty then some "Keine Chunks aus dem Dokument erstellt".toList
      else
        match embed (chunks.map fun c => c.content) with
        | .error e => some e
        | .ok embeddings =>
          match upsert chunks embeddings with
          | .error e => some e
          | .ok _ =>
            match persist with
            | .error (e, _) => some e
            | .ok _ => none

/-- `ExpertDocument.delete` (`models.py` lines 88-94): the row (with its
chunk rows, by cascade) is removed and `update_counts` runs. -/
def delete_document (st : KBState) (docId : Nat) : KBState :=
  let docs' := st.docs.filter fun d => ¬ d.did = docId
  { expert := update_counts docs',
    docs := docs',
    chunkRows := st.chunkRows.filter fun r => ¬ r.doc_id = docId }

/-- `reprocess_document` from `processing.py`: delete the document's chunk
rows (and vector entries, handled in the vector-store model), reset
`chunk_count=0`, `status='pending'`, clear the error, then run
`process_document`. -/
def reprocess_document (st : KBState) (docId : Nat)
    (extract : Except (List Char) (List Char × Nat))
    (embed : List (List Char) → Except (List Char) (List (List ℚ)))
    (upsert : List Chunk → List (List ℚ) → Except (List Char) (List (List Char)))
    (persist : Except (List Char × Nat) Unit) : KBState :=
  match st.docs.find? fun d => d.did = docId with
  | none => st
  | some _ =>
    let st1 : KBState :=
      { st with
        chunkRows := st.chunkRows.filter fun r => ¬ r.doc_id = docId,
        docs := updDoc st.docs docId fun d =>
          { d with chunk_count := 0, status := "pending".toList,
                   error_message := [] } }
    process_document st1 docId extract embed upsert persist

/-! ### C5: the markdown example document -/

set_option maxRecDepth 1000000

/-- C5, counterexample: the spec claims `"# Title\n\nPara one.\n\nPara two."`
yields at least two chunks; `chunk_document` returns exactly one (single
blank lines do not close a unit, and the heading unit absorbs both
paragraphs), so the claim is false on this input. -/
theorem C5_counterexample :
    ¬ 2 ≤ (chunk_document ("# Title\n\nPara one.\n\nPara two.".toList)).length := by
  decide

/-- C5, amended claim: for the input `"# Title\n\nPara one.\n\nPara two."`,
`chunk_document` returns exactly one chunk (not two or more), and its
content — in particular the first returned chunk — includes "Title". -/
theorem C5_amended_one_chunk_with_title :
    chunk_document ("# Title\n\nPara one.\n\nPara two.".toList) =
      [⟨"# Title\nPara one.\nPara two.".toList, none⟩] ∧
    ∃ pre post, "# Title\nPara one.\nPara two.".toList =
      pre ++ "Title".toList ++ post := by
  refine ⟨by decide, "# ".toList, "\nPara one.\nPara two.".toList, ?_⟩
  decide

/-! ### C3: content is dropped when a single sentence exceeds the maximum -/

theorem dropWhile_eq_self_of_all {p : Char → Bool} {l : List Char}
    (h : ∀ c ∈ l, p c = false) : l.dropWhile p = l := by
  cases l with
  | nil => rfl
  | cons c cs => simp [List.dropWhile_cons, h c (by simp)]

theorem pyStrip_eq_self {l : List Char} (h : ∀ c ∈ l, pyIsSpace c = false) :
    pyStrip l = l := by
  unfold pyStrip
  rw [dropWhile_eq_self_of_all h,
    dropWhile_eq_self_of_all (fun c hc => h c (by simpa using hc)),
    List.reverse_reverse]

theorem splitNL_single {l : List Char} (h : ∀ c ∈ l, c ≠ '\n') :
    splitNL l = [l] := by
  induction l with
  | nil => rfl
  | cons c cs ih =>
    have hc : c ≠ '\n' := h c (by simp)
    have ihcs := ih (fun d hd => h d (by simp [hd]))
    simp [splitNL, hc, ihcs]

theorem trySeite_cons_ne {c : Char} {cs : List Char} (h : c ≠ '[') :
    trySeite (c :: cs) = none := by
  have : ('[' == c) = false := by simpa using (Ne.symm h)
  simp [trySeite, seiteMarker, List.isPrefixOf, this]

theorem extractPageGo_no_bracket {l : List Char} (h : ∀ c ∈ l, c ≠ '[') :
    ∀ fuel, extractPageGo fuel l = none := by
  induction l with
  | nil => intro fuel; cases fuel <;> rfl
  | cons c cs ih =>
    intro fuel
    cases fuel with
    | zero => rfl
    | succ fuel =>
      simp only [extractPageGo, trySeite_cons_ne (h c (by simp))]
      exact ih (fun d hd => h d (by simp [hd])) fuel

theorem subSeiteGo_no_bracket {l : List Char} (h : ∀ c ∈ l, c ≠ '[') :
    ∀ fuel acc, subSeiteGo fuel acc l = acc.reverse ++ l := by
  induction l with
  | nil =>
    intro fuel acc
    cases fuel with
    | zero => rfl
    | succ fuel => simp [subSeiteGo, trySeite]
  | cons c cs ih =>
    intro fuel acc
    cases fuel with
    | zero => rfl
    | succ fuel =>
      simp only [subSeiteGo, trySeite_cons_ne (h c (by simp))]
      rw [ih (fun d hd => h d (by simp [hd])) fuel (c :: acc)]
      simp

theorem blankSplitGo_no_nl {l : List Char} (h : ∀ c ∈ l, c ≠ '\n') :
    ∀ fuel acc, blankSplitGo fuel acc l = [acc.reverse ++ l] := by
  induction l with
  | nil =>
    intro fuel acc
    cases fuel with
    | zero => rfl
    | succ fuel => simp [blankSplitGo]
  | cons c cs ih =>
    intro fuel acc
    cases fuel with
    | zero => rfl
    | succ fuel =>
      have hc : (c = '\n') = False := by simp [h c (by simp)]
      simp only [blankSplitGo, hc, if_false]
      rw [ih (fun d hd => h d (by simp [hd])) fuel (c :: acc)]
      simp

theorem sentSplitGo_no_ws {l : List Char} (h : ∀ c ∈ l, pyIsSpace c = false) :
    ∀ fuel acc, sentSplitGo fuel acc l = [acc.reverse ++ l] := by
  induction l with
  | nil =>
    intro fuel acc
    cases fuel with
    | zero => rfl
    | succ fuel => simp [sentSplitGo]
  | cons c cs ih =>
    intro fuel acc
    cases fuel with
    | zero => rfl
    | succ fuel =>
      simp only [sentSplitGo, h c (by simp), Bool.false_and, Bool.false_eq_true,
        if_false]
      rw [ih (fun d hd => h d (by simp [hd])) fuel (c :: acc)]
      simp

theorem intercalate_one (sep x : List Char) : sep.intercalate [x] = x := by
  simp [List.intercalate, List.intersperse]

theorem joinNL_single (x : List Char) : joinNL [x] = x :=
  intercalate_one _ x

theorem joinBlank_single (x : List Char) : joinBlank [x] = x :=
  intercalate_one _ x

theorem joinSp_single (x : List Char) : joinSp [x] = x :=
  intercalate_one _ x

theorem repChar {n : Nat} {c : Char} (hc : c ∈ List.replicate n 'a') : c = 'a' :=
  List.eq_of_mem_replicate hc

theorem rep4001_cons :
    List.replicate 4001 'a' = 'a' :: 'a' :: 'a' :: List.replicate 3998 'a' := by
  rw [show (4001 : Nat) = 3 + 3998 from by norm_num, List.replicate_add]
  rfl

theorem rep4000_cons :
    List.replicate 4000 'a' = 'a' :: List.replicate 3999 'a' := by
  rw [show (4000 : Nat) = 1 + 3999 from by norm_num, List.replicate_add]
  rfl

theorem c3_strip : pyStrip (List.replicate 4001 'a') = List.replicate 4001 'a' :=
  pyStrip_eq_self (fun c hc => by rw [repChar hc]; decide)

theorem c3_heading : is_heading (List.replicate 4001 'a') = false := by
  simp only [is_heading, c3_strip, List.length_replicate]
  norm_num

theorem c3_list : is_list_start (List.replicate 4001 'a') = false := by
  rw [is_list_start, c3_strip, rep4001_cons]
  generalize List.replicate 3998 'a' = t
  simp [List.takeWhile_cons]

theorem c3_code : is_code_block_marker (List.replicate 4001 'a') = false := by
  rw [is_code_block_marker, c3_strip, rep4001_cons]
  generalize List.replicate 3998 'a' = t
  simp [List.isPrefixOf]

theorem c3_ne_nil : (List.replicate 4001 'a').isEmpty = false := by
  rw [rep4001_cons]; rfl

theorem c3_take : (List.replicate 4001 'a').take MAX_CHUNK_SIZE =
    List.replicate 4000 'a' := by
  rw [MAX_CHUNK_SIZE, List.take_replicate]
  norm_num

/-- A text that is a single line with no blank-line or sentence boundary
forms one paragraph unit. -/
theorem seg_single_line (t : List Char)
    (hstrip : pyStrip t = t)
    (hsplit : splitNL t = [t])
    (hcode : is_code_block_marker t = false)
    (hne : t.isEmpty = false)
    (hhead : is_heading t = false)
    (hlist : is_list_start t = false) :
    split_into_semantic_units t = [⟨"paragraph", [t], false⟩] := by
  rw [split_into_semantic_units, hsplit]
  simp only [List.foldl_cons, List.foldl_nil, segStep, segInit, hstrip, hcode,
    hne, hhead, hlist, segAppendLine]
  simp

/-- A single unit at least `MIN_CHUNK_SIZE` long passes `merge_small_units`
unchanged. -/
theorem merge_single_big (t : List Char) (ty : String)
    (hlen : ¬ (joinNL [t]).length < MIN_CHUNK_SIZE) :
    merge_small_units [⟨ty, [t], false⟩] = [⟨ty, [t], false⟩] := by
  rw [merge_small_units]
  simp only [List.foldl_cons, List.foldl_nil, mergeStep]
  simp [hlen, mergeFlush]
  exact fun h => (List.cons_ne_nil _ _) h

/-- `split_oversized_unit` on a unit that is one oversized sentence with
no paragraph or sentence boundary: the sentence is TRUNCATED to its first
`MAX_CHUNK_SIZE` characters (`sent[:MAX_CHUNK_SIZE]` in the source). -/
theorem paraStep_single_big_sentence (t : List Char) (ty : String)
    (hsent : reSplitSentence t = [t])
    (hbig : MAX_CHUNK_SIZE < t.length) :
    paraStep ty false ⟨[], [], 0⟩ t =
      ⟨[], [t.take MAX_CHUNK_SIZE], (t.take MAX_CHUNK_SIZE).length⟩ := by
  rw [paraStep]
  have h2 : ¬ t.length + 2 ≤ MAX_CHUNK_SIZE := by omega
  have h3 : ¬ t.length + 1 ≤ MAX_CHUNK_SIZE := by omega
  have h4 : ¬ t.length ≤ MAX_CHUNK_SIZE := by omega
  simp only [hsent, paraFlush]
  simp [h2, h3, h4, hbig, sentLoop, joinSp_single]

theorem split_oversized_single_sentence (t : List Char) (ty : String)
    (hstrip : pyStrip t = t)
    (hblank : reSplitBlank t = [t])
    (hsent : reSplitSentence t = [t])
    (hne : t.isEmpty = false)
    (hbig : MAX_CHUNK_SIZE < t.length) :
    split_oversized_unit ⟨ty, [t], false⟩ =
      [⟨ty, [t.take MAX_CHUNK_SIZE], false⟩] := by
  rw [split_oversized_unit]
  simp only [joinNL_single, hblank]
  have h1 : ¬ t.length ≤ MAX_CHUNK_SIZE := by omega
  simp only [h1, if_false]
  rw [paraLoop]
  simp only [hstrip, hne, Bool.false_eq_true, if_false, paraLoop,
    paraStep_single_big_sentence t ty hsent hbig]
  have htake : t.take MAX_CHUNK_SIZE ≠ [] := by
    intro h
    have := congrArg List.length h
    simp only [List.length_take, List.length_nil] at this
    rw [MAX_CHUNK_SIZE] at this hbig
    omega
  simp [htake, joinBlank_single]

/-- `finalizeUnit` on marker-free non-blank content keeps it unchanged. -/
theorem finalize_plain (x : List Char) (ty : String) (hh : Bool)
    (hstrip : pyStrip x = x)
    (hsub : subSeite x = x)
    (hpage : extract_page_number x = none)
    (hne : x.isEmpty = false) :
    finalizeUnit ⟨ty, [x], hh⟩ = some ⟨x, none⟩ := by
  rw [finalizeUnit]
  simp only [joinNL_single, hstrip, hsub, hpage, hne]
  simp [hne]

theorem c3_units2 :
    split_into_semantic_units (List.replicate 4001 'a') =
      [⟨"paragraph", [List.replicate 4001 'a'], false⟩] :=
  seg_single_line (List.replicate 4001 'a') c3_strip
    (splitNL_single (fun c hc => by rw [repChar hc]; decide)) c3_code c3_ne_nil
    c3_heading c3_list

theorem c3_merge2 :
    merge_small_units [⟨"paragraph", [List.replicate 4001 'a'], false⟩] =
      [⟨"paragraph", [List.replicate 4001 'a'], false⟩] :=
  merge_single_big (List.replicate 4001 'a') "paragraph"
    (by rw [joinNL_single, List.length_replicate, MIN_CHUNK_SIZE]; norm_num)

theorem c3_split2 :
    split_oversized_unit ⟨"paragraph", [List.replicate 4001 'a'], false⟩ =
      [⟨"paragraph", [List.replicate 4000 'a'], false⟩] := by
  have h := split_oversized_single_sentence (List.replicate 4001 'a') "paragraph"
    c3_strip
    (by rw [reSplitBlank, blankSplitGo_no_nl (fun c hc => by rw [repChar hc]; decide)]; rfl)
    (by rw [reSplitSentence, sentSplitGo_no_ws (fun c hc => by rw [repChar hc]; decide)]; rfl)
    c3_ne_nil
    (by rw [List.length_replicate, MAX_CHUNK_SIZE]; norm_num)
  rw [h, c3_take]

theorem c3_fin2 :
    finalizeUnit ⟨"paragraph", [List.replicate 4000 'a'], false⟩ =
      some ⟨List.replicate 4000 'a', none⟩ := by
  have hmem4 : ∀ c ∈ List.replicate 4000 'a', c = 'a' := fun c hc => repChar hc
  exact finalize_plain _ _ _
    (pyStrip_eq_self (fun c hc => by rw [hmem4 c hc]; decide))
    (by rw [subSeite, subSeiteGo_no_bracket (fun c hc => by rw [hmem4 c hc]; decide)]; rfl)
    (by rw [extract_page_number,
      extractPageGo_no_bracket (fun c hc => by rw [hmem4 c hc]; decide)])
    (by rw [rep4000_cons]; rfl)

/-- C3: the claim "chunking never drops non-whitespace content" fails.
On the 4001-character single-sentence input `'a' * 4001`,
`split_oversized_unit` truncates the sentence via `sent[:MAX_CHUNK_SIZE]`
and `chunk_document` returns one 4000-character chunk: the final
character is silently dropped (the concatenated chunk contents are
strictly shorter than the non-whitespace input).  This contradicts the
spec's testable property and the module's own "no artificial splits"
documentation, so the code, not the claim, is at fault. -/
theorem C3_truncation_drops_content :
    chunk_document (List.replicate 4001 'a') = [⟨List.replicate 4000 'a', none⟩] ∧
    ((chunk_document (List.replicate 4001 'a')).map (fun c => c.content)).flatten.length
      < (List.replicate 4001 'a').length := by
  have h : chunk_document (List.replicate 4001 'a') =
      [⟨List.replicate 4000 'a', none⟩] := by
    rw [chunk_document.eq_def]
    simp only [c3_strip, c3_ne_nil, Bool.or_self, Bool.false_eq_true, if_false,
      c3_units2, c3_merge2, List.map_cons, List.map_nil, c3_split2]
    simp only [List.flatten, List.append_nil, List.filterMap_cons, c3_fin2,
      List.filterMap_nil]
  refine ⟨h, ?_⟩
  rw [h]
  simp only [List.map_cons, List.map_nil, List.flatten_cons, List.flatten_nil,
    List.append_nil, List.length_replicate]
  norm_num

/-! ### C8: every produced chunk respects the hard maximum size -/

theorem intercalate_cons_cons (sep x y : List Char) (zs : List (List Char)) :
    List.intercalate sep (x :: y :: zs) =
      x ++ sep ++ List.intercalate sep (y :: zs) := by
  simp [List.intercalate, List.intersperse]

theorem intercalate_append_singleton_length (sep : List Char)
    (xs : List (List Char)) (y : List Char) :
    (List.intercalate sep (xs ++ [y])).length ≤
      (List.intercalate sep xs).length + sep.length + y.length := by
  induction xs with
  | nil => simp [intercalate_one]
  | cons x xs ih =>
    cases xs with
    | nil =>
      simp [intercalate_one, intercalate_cons_cons]
      omega
    | cons z zs =>
      rw [List.cons_append, List.cons_append, intercalate_cons_cons,
        intercalate_cons_cons]
      simp only [List.length_append]
      rw [List.cons_append] at ih
      omega

theorem joinBlank_append_len (cs : List (List Char)) (p : List Char) :
    (joinBlank (cs ++ [p])).length ≤ (joinBlank cs).length + p.length + 2 := by
  have := intercalate_append_singleton_length ['\n', '\n'] cs p
  have h2 : (['\n', '\n'] : List Char).length = 2 := rfl
  simp only [joinBlank]
  omega

theorem joinSp_append_len (sc : List (List Char)) (s : List Char) :
    (joinSp (sc ++ [s])).length ≤ (joinSp sc).length + s.length + 1 := by
  have := intercalate_append_singleton_length [' '] sc s
  have h1 : ([' '] : List Char).length = 1 := rfl
  simp only [joinSp]
  omega

theorem joinSp_nil : joinSp [] = [] := rfl

theorem joinBlank_nil : joinBlank [] = [] := rfl

/-- Invariant of the sentence loop in `split_oversized_unit`: every emitted
unit and the running chunk stay within `MAX_CHUNK_SIZE`. -/
theorem sentLoop_bound (sents : List (List Char)) :
    ∀ (sc : List (List Char)) (slen : Nat) (res : List SemUnit),
    (∀ r ∈ res, (joinNL r.content).length ≤ MAX_CHUNK_SIZE) →
    (joinSp sc).length ≤ slen → slen ≤ MAX_CHUNK_SIZE →
    (∀ r ∈ (sentLoop sents sc slen res).1,
        (joinNL r.content).length ≤ MAX_CHUNK_SIZE) ∧
    (joinSp (sentLoop sents sc slen res).2.1).length ≤
        (sentLoop sents sc slen res).2.2 ∧
    (sentLoop sents sc slen res).2.2 ≤ MAX_CHUNK_SIZE := by
  induction sents with
  | nil =>
    intro sc slen res hres hsc hslen
    exact ⟨hres, hsc, hslen⟩
  | cons s rest ih =>
    intro sc slen res hres hsc hslen
    rw [sentLoop]
    by_cases hg : slen + s.length + 1 ≤ MAX_CHUNK_SIZE
    · simp only [hg, if_true]
      refine ih _ _ _ hres ?_ hg
      calc (joinSp (sc ++ [s])).length ≤ (joinSp sc).length + s.length + 1 :=
             joinSp_append_len sc s
        _ ≤ slen + s.length + 1 := by omega
    · simp only [hg, if_false]
      have hres' : ∀ r ∈ (if sc ≠ [] then
          res ++ [⟨"paragraph", [joinSp sc], false⟩] else res),
          (joinNL r.content).length ≤ MAX_CHUNK_SIZE := by
        intro r hr
        by_cases hsc0 : sc = []
        · simp [hsc0] at hr
          exact hres r hr
        · simp [hsc0] at hr
          rcases hr with hr | hr
          · exact hres r hr
          · rw [hr]
            simp only [joinNL_single]
            omega
      have hfirst : (if s.length ≤ MAX_CHUNK_SIZE then s
          else s.take MAX_CHUNK_SIZE).length ≤ MAX_CHUNK_SIZE := by
        by_cases hs : s.length ≤ MAX_CHUNK_SIZE
        · simp [hs]
        · simp [hs, List.length_take]
      refine ih _ _ _ hres' ?_ hfirst
      rw [joinSp_single]

/-- `paraFlush` only emits units within the bound. -/
theorem paraFlush_bound (ty : String) (uhead : Bool) (st : ParaState)
    (hres : ∀ r ∈ st.results, (joinNL r.content).length ≤ MAX_CHUNK_SIZE)
    (hcur : (joinBlank st.cur).length ≤ st.curLen)
    (hlen : st.curLen ≤ MAX_CHUNK_SIZE) :
    ∀ r ∈ paraFlush ty uhead st, (joinNL r.content).length ≤ MAX_CHUNK_SIZE := by
  intro r hr
  rw [paraFlush] at hr
  by_cases hc0 : st.cur = []
  · simp [hc0] at hr
    exact hres r hr
  · simp [hc0] at hr
    rcases hr with hr | hr
    · exact hres r hr
    · rw [hr]
      simp only [joinNL_single]
      omega

/-- One paragraph step preserves the loop invariant. -/
theorem paraStep_bound (ty : String) (uhead : Bool) (st : ParaState)
    (p : List Char)
    (hres : ∀ r ∈ st.results, (joinNL r.content).length ≤ MAX_CHUNK_SIZE)
    (hcur : (joinBlank st.cur).length ≤ st.curLen)
    (hlen : st.curLen ≤ MAX_CHUNK_SIZE) :
    (∀ r ∈ (paraStep ty uhead st p).results,
        (joinNL r.content).length ≤ MAX_CHUNK_SIZE) ∧
    (joinBlank (paraStep ty uhead st p).cur).length ≤
        (paraStep ty uhead st p).curLen ∧
    (paraStep ty uhead st p).curLen ≤ MAX_CHUNK_SIZE := by
  have hflush := paraFlush_bound ty uhead st hres hcur hlen
  rw [paraStep]
  split
  · next hg =>
    refine ⟨hres, ?_, hg⟩
    dsimp only
    calc (joinBlank (st.cur ++ [p])).length
        ≤ (joinBlank st.cur).length + p.length + 2 := joinBlank_append_len _ _
      _ ≤ st.curLen + p.length + 2 := by omega
  · next hg =>
    split
    · next hbig =>
      have hs := sentLoop_bound (reSplitSentence p) [] 0 _ hflush
        (by rw [joinSp_nil]; exact Nat.zero_le 0) (by omega)
      dsimp only
      rcases hSL : sentLoop (reSplitSentence p) [] 0 (paraFlush ty uhead st)
        with ⟨res2, sc2, slen2⟩
      rw [hSL] at hs
      dsimp only at hs
      rcases hs with ⟨hres2, hsc, hslen⟩
      dsimp only
      split
      · next hsc0 =>
        refine ⟨hres2, ?_, ?_⟩ <;> dsimp only
        · rw [joinBlank_single]
        · omega
      · next hsc0 =>
        refine ⟨hres2, ?_, ?_⟩ <;> dsimp only
        · rw [joinBlank_nil]
          exact Nat.zero_le 0
        · omega
    · next hbig =>
      refine ⟨hflush, ?_, ?_⟩ <;> dsimp only
      · rw [joinBlank_single]
      · omega

/-- The paragraph loop preserves the invariant. -/
theorem paraLoop_bound (ty : String) (uhead : Bool) (paras : List (List Char)) :
    ∀ (st : ParaState),
    (∀ r ∈ st.results, (joinNL r.content).length ≤ MAX_CHUNK_SIZE) →
    (joinBlank st.cur).length ≤ st.curLen → st.curLen ≤ MAX_CHUNK_SIZE →
    (∀ r ∈ (paraLoop ty uhead paras st).results,
        (joinNL r.content).length ≤ MAX_CHUNK_SIZE) ∧
    (joinBlank (paraLoop ty uhead paras st).cur).length ≤
        (paraLoop ty uhead paras st).curLen ∧
    (paraLoop ty uhead paras st).curLen ≤ MAX_CHUNK_SIZE := by
  induction paras with
  | nil =>
    intro st hres hcur hlen
    exact ⟨hres, hcur, hlen⟩
  | cons p0 rest ih =>
    intro st hres hcur hlen
    rw [paraLoop]
    split
    · exact ih st hres hcur hlen
    · have hstep := paraStep_bound ty uhead st (pyStrip p0) hres hcur hlen
      exact ih _ hstep.1 hstep.2.1 hstep.2.2

/-- Every unit returned by `split_oversized_unit` is within the bound or is
the unchanged input unit (which was already within the bound). -/
theorem split_oversized_unit_bound (u : SemUnit) :
    ∀ r ∈ split_oversized_unit u, (joinNL r.content).length ≤ MAX_CHUNK_SIZE := by
  intro r hr
  rw [split_oversized_unit] at hr
  by_cases hle : (joinNL u.content).length ≤ MAX_CHUNK_SIZE
  · simp only [hle, if_true] at hr
    simp at hr
    rw [hr]
    exact hle
  · simp only [hle, if_false] at hr
    have hloop := paraLoop_bound u.utype u.has_heading
      (reSplitBlank (joinNL u.content)) ⟨[], [], 0⟩
      (by intro r hr; simp at hr)
      (by rw [joinBlank_nil]; exact Nat.zero_le 0)
      (Nat.zero_le _)
    rcases hloop with ⟨hres, hcur, hlen⟩
    by_cases hc0 : (paraLoop u.utype u.has_heading
        (reSplitBlank (joinNL u.content)) ⟨[], [], 0⟩).cur = []
    · simp only [ne_eq, hc0, not_true_eq_false, if_false] at hr
      exact hres r hr
    · simp only [ne_eq, hc0, not_false_eq_true, if_true] at hr
      rw [List.mem_append] at hr
      rcases hr with hr | hr
      · exact hres r hr
      · simp at hr
        rw [hr]
        simp only [joinNL_single]
        omega

theorem pyStrip_length_le (l : List Char) : (pyStrip l).length ≤ l.length := by
  rw [pyStrip]
  calc ((l.dropWhile pyIsSpace).reverse.dropWhile pyIsSpace).reverse.length
      = ((l.dropWhile pyIsSpace).reverse.dropWhile pyIsSpace).length :=
        List.length_reverse _
    _ ≤ (l.dropWhile pyIsSpace).reverse.length :=
        (List.dropWhile_sublist pyIsSpace).length_le
    _ = (l.dropWhile pyIsSpace).length := List.length_reverse _
    _ ≤ l.length := (List.dropWhile_sublist pyIsSpace).length_le

theorem trySeite_length_le {l : List Char} {n : Nat} {r : List Char}
    (h : trySeite l = some (n, r)) : r.length ≤ l.length := by
  rw [trySeite] at h
  split at h
  · dsimp only at h
    split at h
    · exact absurd h (by simp)
    · next ds d heq hmatch =>
      rw [Option.some_inj] at h
      have hr : r = d := congrArg Prod.snd h.symm
      have hlen := congrArg List.length hmatch
      simp only [List.length_cons, List.length_drop] at hlen
      rw [hr]
      omega
    · exact absurd h (by simp)
  · exact absurd h (by simp)

theorem subSeiteGo_length_le :
    ∀ (fuel : Nat) (acc l : List Char),
    (subSeiteGo fuel acc l).length ≤ acc.length + l.length := by
  intro fuel
  induction fuel with
  | zero =>
    intro acc l
    simp [subSeiteGo]
  | succ fuel ih =>
    intro acc l
    have hunf : subSeiteGo (fuel + 1) acc l =
        match trySeite l with
        | some (_, rest) => subSeiteGo fuel acc (rest.dropWhile pyIsSpace)
        | none =>
          match l with
          | [] => acc.reverse
          | c :: cs => subSeiteGo fuel (c :: acc) cs := rfl
    rw [hunf]
    split
    · next n rest hts =>
      calc (subSeiteGo fuel acc (rest.dropWhile pyIsSpace)).length
          ≤ acc.length + (rest.dropWhile pyIsSpace).length := ih _ _
        _ ≤ acc.length + rest.length := by
            have := (List.dropWhile_sublist pyIsSpace (l := rest)).length_le
            omega
        _ ≤ acc.length + l.length := by
            have := trySeite_length_le hts
            omega
    · split
      · simp
      · rename_i c cs heq
        have := ih (c :: acc) cs
        simp only [List.length_cons] at this ⊢
        omega

theorem subSeite_length_le (l : List Char) : (subSeite l).length ≤ l.length := by
  have := subSeiteGo_length_le (l.length + 1) [] l
  simpa using this

/-- `finalizeUnit` only shortens: the produced chunk's content is not
longer than the unit's joined content. -/
theorem finalizeUnit_length_le {u : SemUnit} {c : Chunk}
    (h : finalizeUnit u = some c) :
    c.content.length ≤ (joinNL u.content).length := by
  rw [finalizeUnit] at h
  split at h
  · exact absurd h (by simp)
  · dsimp only at h
    split at h
    · exact absurd h (by simp)
    · rw [Option.some_inj] at h
      have hc : c.content = pyStrip (subSeite (pyStrip (joinNL u.content))) := by
        rw [← h]
      rw [hc]
      calc (pyStrip (subSeite (pyStrip (joinNL u.content)))).length
          ≤ (subSeite (pyStrip (joinNL u.content))).length := pyStrip_length_le _
        _ ≤ (pyStrip (joinNL u.content)).length := subSeite_length_le _
        _ ≤ (joinNL u.content).length := pyStrip_length_le _

/-- C8: every chunk returned by `chunk_document` has content of at most
`MAX_CHUNK_SIZE = 4000` characters.  (This is stronger than the claim: the
claim allows an exception for a single sentence longer than 4000
characters, but the code truncates such sentences — see the C3 analysis —
so the bound holds without exception.) -/
theorem C8_chunk_size_bound (text : List Char) :
    ∀ c ∈ chunk_document text, c.content.length ≤ 4000 := by
  intro c hc
  rw [chunk_document.eq_def] at hc
  split at hc
  · simp at hc
  · simp only [List.mem_filterMap] at hc
    rcases hc with ⟨u, hu, hfin⟩
    simp only [List.mem_flatten, List.mem_map] at hu
    rcases hu with ⟨us, ⟨m, _, hm⟩, humem⟩
    have hb : (joinNL u.content).length ≤ MAX_CHUNK_SIZE := by
      apply split_oversized_unit_bound m
      rw [hm]
      exact humem
    have := finalizeUnit_length_le hfin
    rw [MAX_CHUNK_SIZE] at hb
    omega

/-- C8 witness: the bound, applied to a concrete document and its chunk. -/
theorem C8_chunk_size_bound_witness :
    (⟨"Test".toList, none⟩ : Chunk) ∈ chunk_document ("Test".toList) ∧
    (⟨"Test".toList, none⟩ : Chunk).content.length ≤ 4000 :=
  ⟨by decide, C8_chunk_size_bound ("Test".toList) _ (by decide)⟩

/-! ### C1 -/

theorem queryCandidates_sorted (dist : List ℚ → List ℚ → ℚ)
    (store : List ChromaEntry) (q : List ℚ) (maxr : Nat) :
    (queryCandidates dist store q maxr).Pairwise
      (fun a b : RChunk => a.distance ≤ b.distance) := by
  rw [queryCandidates, chromaQuery]
  apply List.Pairwise.map
  · intro a b hab
    exact hab
  · exact (List.sorted_insertionSort distLE _).sublist (List.take_sublist _ _)

/-- C1: for every collection state, query embedding, threshold `t`,
`max_results` and `min_results`, `query_collection` returns results in
nondecreasing distance order; when at least `min_results` candidates pass
the `distance ≤ t` filter it returns exactly the passing candidates (all
with `distance ≤ t`); when fewer pass and candidates exist it returns the
`min(min_results, #candidates)` closest candidates regardless of the
threshold; in particular with `min_results = 1` and a threshold excluding
every candidate, exactly one result — the closest — is returned. -/
theorem C1_query_threshold_fallback (dist : List ℚ → List ℚ → ℚ)
    (store : List ChromaEntry) (q : List ℚ) (t : ℚ) (maxr minr : Nat) :
    (query_collection dist store q maxr t minr).Pairwise
      (fun a b : RChunk => a.distance ≤ b.distance) ∧
    (minr ≤ ((queryCandidates dist store q maxr).filter
        (fun c => c.distance ≤ t)).length →
      query_collection dist store q maxr t minr =
        (queryCandidates dist store q maxr).filter (fun c => c.distance ≤ t) ∧
      ∀ c ∈ query_collection dist store q maxr t minr, c.distance ≤ t) ∧
    (((queryCandidates dist store q maxr).filter
        (fun c => c.distance ≤ t)).length < minr →
      queryCandidates dist store q maxr ≠ [] →
      query_collection dist store q maxr t minr =
        (queryCandidates dist store q maxr).take minr ∧
      (query_collection dist store q maxr t minr).length =
        min minr (queryCandidates dist store q maxr).length ∧
      ∀ x ∈ query_collection dist store q maxr t minr,
        ∀ y ∈ (queryCandidates dist store q maxr).drop minr,
          x.distance ≤ y.distance) ∧
    (minr = 1 →
      (queryCandidates dist store q maxr).filter (fun c => c.distance ≤ t) = [] →
      queryCandidates dist store q maxr ≠ [] →
      ∃ best, query_collection dist store q maxr t minr = [best] ∧
        ∀ y ∈ queryCandidates dist store q maxr, best.distance ≤ y.distance) := by
  have hsorted := queryCandidates_sorted dist store q maxr
  by_cases hcase : ((queryCandidates dist store q maxr).filter
      (fun c => c.distance ≤ t)).length < minr ∧
      queryCandidates dist store q maxr ≠ []
  · have hres : query_collection dist store q maxr t minr =
        (queryCandidates dist store q maxr).take minr := by
      rw [query_collection, if_pos hcase]
    refine ⟨?_, ?_, ?_, ?_⟩
    · rw [hres]
      exact hsorted.sublist (List.take_sublist _ _)
    · intro hge
      omega
    · intro _ _
      refine ⟨hres, ?_, ?_⟩
      · rw [hres, List.length_take]
      · intro x hx y hy
        rw [hres] at hx
        have := (List.take_append_drop minr
          (queryCandidates dist store q maxr)) ▸ hsorted
        rw [List.pairwise_append] at this
        exact this.2.2 x hx y hy
    · intro hm1 hpass hne
      rcases hcane : queryCandidates dist store q maxr with _ | ⟨b, rest⟩
      · exact absurd hcane hne
      · refine ⟨b, ?_, ?_⟩
        · rw [hres, hm1, hcane]
          rfl
        · intro y hy
          rw [hcane] at hsorted
          rw [List.pairwise_cons] at hsorted
          rcases List.mem_cons.mp hy with hy | hy
          · rw [hy]
          · exact hsorted.1 y hy
  · have hres : query_collection dist store q maxr t minr =
        (queryCandidates dist store q maxr).filter (fun c => c.distance ≤ t) := by
      rw [query_collection, if_neg hcase]
    refine ⟨?_, ?_, ?_, ?_⟩
    · rw [hres]
      exact hsorted.filter _
    · intro _
      refine ⟨hres, ?_⟩
      intro c hc
      rw [hres] at hc
      have := List.of_mem_filter hc
      simpa using this
    · intro hlt hne
      exact absurd ⟨hlt, hne⟩ hcase
    · intro hm1 hpass hne
      rw [hpass] at hcase
      simp only [List.length_nil, hm1] at hcase
      exact absurd ⟨by omega, hne⟩ hcase

def c1dist : List ℚ → List ℚ → ℚ := fun v _ => v.headD 0

def c1e1 : ChromaEntry := ⟨"id1".toList, [2], "alpha".toList, 1, 0, 0⟩

def c1e2 : ChromaEntry := ⟨"id2".toList, [1], "beta".toList, 1, 1, 2⟩

/-- C1 witness: a two-entry store, a threshold of `0` that excludes both
candidates, and `min_results = 1`: exactly the closest entry comes back. -/
theorem C1_query_threshold_fallback_witness :
    ∃ best, query_collection c1dist [c1e1, c1e2] [] 10 0 1 = [best] ∧
      ∀ y ∈ queryCandidates c1dist [c1e1, c1e2] [] 10,
        best.distance ≤ y.distance :=
  (C1_query_threshold_fallback c1dist [c1e1, c1e2] [] 0 10 1).2.2.2 rfl
    (by decide) (by decide)

/-! ### C4 -/

def idxLT (a b : EmbItem) : Prop := a.index < b.index

instance : IsAntisymm EmbItem idxLT :=
  ⟨fun _ _ hab hba => absurd hba (Nat.lt_asymm hab)⟩

theorem embBatch_eq (call : List (List Char) → List EmbItem)
    (f : List Char → List ℚ) (b : List (List Char))
    (hperm : (call b).Perm (b.enum.map fun p => ⟨f p.2, p.1⟩)) :
    embBatch call b = b.map f := by
  have hcanon_str : List.Pairwise idxLT (b.enum.map fun p => (⟨f p.2, p.1⟩ : EmbItem)) := by
    rw [List.pairwise_map]
    have h1 : List.Pairwise (· < ·) (b.enum.map Prod.fst) := by
      rw [List.enum_map_fst]
      exact List.pairwise_lt_range _
    rw [List.pairwise_map] at h1
    exact h1
  have hsortperm : (List.insertionSort idxLE (call b)).Perm
      (b.enum.map fun p => (⟨f p.2, p.1⟩ : EmbItem)) :=
    (List.perm_insertionSort idxLE (call b)).trans hperm
  have hsorted : List.Pairwise idxLE (List.insertionSort idxLE (call b)) :=
    List.sorted_insertionSort idxLE (call b)
  have hnodup : (List.insertionSort idxLE (call b)).Pairwise
      (fun a c : EmbItem => a.index ≠ c.index) := by
    have hranges : ((List.insertionSort idxLE (call b)).map
        (fun it : EmbItem => it.index)).Perm (List.range b.length) := by
      have h2 := hsortperm.map (fun it : EmbItem => it.index)
      rw [List.map_map] at h2
      have h3 : ((fun it : EmbItem => it.index) ∘
          fun p : Nat × List Char => (⟨f p.2, p.1⟩ : EmbItem)) = Prod.fst := rfl
      rw [h3, List.enum_map_fst] at h2
      exact h2
    have hnd : ((List.insertionSort idxLE (call b)).map
        (fun it : EmbItem => it.index)).Nodup :=
      hranges.nodup_iff.mpr (List.nodup_range _)
    rw [List.Nodup, List.pairwise_map] at hnd
    exact hnd
  have hstrict : List.Pairwise idxLT (List.insertionSort idxLE (call b)) := by
    have := hsorted.and hnodup
    exact this.imp fun h => Nat.lt_of_le_of_ne h.1 h.2
  have heq : List.insertionSort idxLE (call b) =
      b.enum.map fun p => (⟨f p.2, p.1⟩ : EmbItem) :=
    List.eq_of_perm_of_sorted hsortperm hstrict hcanon_str
  rw [embBatch, heq, List.map_map]
  have : ((fun it : EmbItem => it.embedding) ∘ fun p : Nat × List Char =>
      (⟨f p.2, p.1⟩ : EmbItem)) = fun p : Nat × List Char => f p.2 := rfl
  rw [this]
  calc b.enum.map (fun p : Nat × List Char => f p.2)
      = (b.enum.map Prod.snd).map f := by rw [List.map_map]; rfl
    _ = b.map f := by rw [List.enum_map_snd]

theorem embLoop_eq (call : List (List Char) → List EmbItem)
    (f : List Char → List ℚ)
    (H : ∀ b, (call b).Perm (b.enum.map fun p => ⟨f p.2, p.1⟩)) :
    ∀ texts, embLoop call texts = texts.map f := by
  have main : ∀ n texts, List.length texts ≤ n → embLoop call texts = texts.map f := by
    intro n
    induction n with
    | zero =>
      intro texts hlen
      have : texts = [] := List.eq_nil_of_length_eq_zero (Nat.le_zero.mp hlen)
      rw [this]
      simp [embLoop]
    | succ n ih =>
      intro texts hlen
      cases texts with
      | nil => simp [embLoop]
      | cons t ts =>
        rw [embLoop]
        rw [embBatch_eq call f _ (H _), ih _ (by
          simp only [List.length_drop, List.length_cons, EMB_BATCH_SIZE]
          simp only [List.length_cons] at hlen
          omega)]
        rw [← List.map_append, List.take_append_drop]
  intro texts
  exact main texts.length texts (Nat.le_refl _)

/-- C4: assuming every upstream batch call succeeds and returns exactly
one `{embedding, index}` item per input text with its within-batch request
position as index (in any order — `H` only requires a permutation),
`get_embeddings` returns one vector per input text, positionally: the
result is `texts.map f` for the per-text embedding `f` asserted by `H`.
The re-sort on the reported index restores any out-of-order batch. -/
theorem C4_embeddings_positional (api_key : List Char) (call : List (List Char) → List EmbItem)
    (f : List Char → List ℚ) (texts : List (List Char))
    (hkey : api_key.isEmpty = false)
    (H : ∀ b, (call b).Perm (b.enum.map fun p => ⟨f p.2, p.1⟩)) :
    get_embeddings api_key call texts = .ok (texts.map f) ∧
    (texts.map f).length = texts.length ∧
    ∀ (i : Fin texts.length),
      (texts.map f).get ⟨i, by simp⟩ = f (texts.get i) := by
  refine ⟨?_, List.length_map _ _, ?_⟩
  · rw [get_embeddings, hkey]
    simp only [Bool.false_eq_true, if_false]
    rw [embLoop_eq call f H texts]
  · intro i
    simp

def c4call (b : List (List Char)) : List EmbItem :=
  (b.enum.map fun p => ⟨[(p.2.length : ℚ)], p.1⟩).reverse

/-- C4 witness: a stub upstream that returns each batch REVERSED (indices
out of order); the client still returns the vectors in input order. -/
theorem C4_embeddings_positional_witness :
    get_embeddings ("key".toList) c4call ["a".toList, "bb".toList] =
      .ok [[(1 : ℚ)], [(2 : ℚ)]] := by
  have h := (C4_embeddings_positional ("key".toList) c4call
    (fun t => [(t.length : ℚ)]) ["a".toList, "bb".toList]
    (by decide) (fun b => List.reverse_perm _)).1
  rw [h]
  rfl

/-! ### C7 -/

/-- C7: when the vector-store query of `get_rag_response` returns zero
chunks, the function returns `.ok` with the fixed "no relevant
information" sentinel and an empty source list — for EVERY generation
collaborator `llm`, so the generation call can have had no effect (it is
never reached), and no error is raised. -/
theorem C7_zero_result_sentinel (expert : ExpertIn) (question : List Char)
    (conversation : Option (List ChatMsg)) (api_key : List Char)
    (dist : List ℚ → List ℚ → ℚ) (store : List ChromaEntry) (v : List ℚ)
    (docName : Nat → Option (List Char))
    (hkey : api_key.isEmpty = false)
    (hzero : query_collection dist store v 10 (1/2) 1 = []) :
    ∀ llm, get_rag_response expert question conversation api_key dist store
      (.ok v) docName llm = .ok (noInfoSentinel, []) := by
  intro llm
  rw [get_rag_response, hkey]
  simp only [Bool.false_eq_true, if_false]
  rw [hzero]
  rfl

def c7llm : List ChatMsg → LlmOutcome := fun _ => .success ["answer".toList]

/-- C7 witness: an empty collection, any generation stub: the sentinel
answer with no sources comes back. -/
theorem C7_zero_result_sentinel_witness :
    get_rag_response ⟨1, "prompt".toList⟩ "question".toList none "key".toList
      (fun _ _ => 0) [] (.ok []) (fun _ => none) c7llm =
      .ok (noInfoSentinel, []) :=
  C7_zero_result_sentinel ⟨1, "prompt".toList⟩ "question".toList none "key".toList
    (fun _ _ => 0) [] [] (fun _ => none) (by decide) (by decide) c7llm

/-! ### C6 -/

/-- An 11-message conversation in chronological order; message `i` carries
`i` marker characters, so the most recent message is the one with 10. -/
def c6msgs : List ChatMsg :=
  (List.range 11).map fun i => ⟨"user".toList, List.replicate i 'm'⟩

/-- C6: the claim says the prompt contains, between the system instruction
and the question, the LAST 10 prior turns (the 10 most recent messages) —
and the code's own comment says "Last 10 messages" — but
`order_by('created_at')[:10]` slices the FIRST ten of the ascending
order.  On an 11-message conversation the built sequence keeps the oldest
message and omits the newest one, so the code, not the claim, is wrong. -/
theorem C6_history_slice_takes_oldest_messages :
    ragHistory (some c6msgs) = c6msgs.take 10 ∧
    (⟨"user".toList, List.replicate 10 'm'⟩ : ChatMsg) ∈ c6msgs ∧
    (⟨"user".toList, List.replicate 0 'm'⟩ : ChatMsg) ∈
      ragMessages "sys".toList (some c6msgs) "q".toList ∧
    (⟨"user".toList, List.replicate 10 'm'⟩ : ChatMsg) ∉
      ragMessages "sys".toList (some c6msgs) "q".toList ∧
    c6msgs.take 10 ≠ c6msgs.drop 1 := by
  refine ⟨rfl, by decide, by decide, by decide, by decide⟩

/-! ### C2 -/

theorem find_updDoc {docs : List DocRec} {docId : Nat} {d : DocRec}
    (g : DocRec → DocRec) (hg : ∀ x, (g x).did = x.did)
    (h : docs.find? (fun x => x.did = docId) = some d) :
    (updDoc docs docId g).find? (fun x => x.did = docId) = some (g d) := by
  induction docs with
  | nil => exact absurd h (by simp)
  | cons a as ih =>
    rw [List.find?_cons] at h
    have hcons : updDoc (a :: as) docId g =
        (if a.did = docId then g a else a) :: updDoc as docId g := rfl
    rw [hcons, List.find?_cons]
    by_cases ha : a.did = docId
    · simp only [ha, decide_True, if_true] at h ⊢
      rw [Option.some_inj] at h
      subst h
      simp [hg, ha]
    · simp only [ha, decide_False, if_false, if_neg ha] at h ⊢
      exact ih h

/-- Failure behaviour of `process_document`: the document is marked
failed with the step's message and the expert record is untouched. -/
theorem processDocument_fail_state (st : KBState) (docId : Nat)
    (extract : Except (List Char) (List Char × Nat))
    (embed : List (List Char) → Except (List Char) (List (List ℚ)))
    (upsert : List Chunk → List (List ℚ) → Except (List Char) (List (List Char)))
    (persist : Except (List Char × Nat) Unit)
    (e : List Char) (d : DocRec)
    (hdoc : st.docs.find? (fun x => x.did = docId) = some d)
    (hfail : pipelineError extract embed upsert persist = some e)
    (hne : e ≠ []) :
    ∃ d', (process_document st docId extract embed upsert persist).docs.find?
        (fun x => x.did = docId) = some d' ∧
      d'.status = "failed".toList ∧ d'.error_message = e ∧ d'.error_message ≠ [] ∧
      (process_document st docId extract embed upsert persist).expert =
        st.expert := by
  rw [process_document.eq_def, hdoc]
  dsimp only
  rcases extract with e0 | ⟨text, pc⟩
  · rw [pipelineError.eq_def] at hfail
    rw [Option.some_inj] at hfail
    subst hfail
    refine ⟨_, find_updDoc _ (fun x => rfl)
      (find_updDoc _ (fun x => rfl) hdoc), rfl, rfl, hne, rfl⟩
  · rw [pipelineError.eq_def] at hfail
    dsimp only at hfail
    by_cases hstrip : (pyStrip text).isEmpty
    · simp only [hstrip, if_true] at hfail ⊢
      rw [Option.some_inj] at hfail
      subst hfail
      refine ⟨_, find_updDoc _ (fun x => rfl)
        (find_updDoc _ (fun x => rfl) hdoc), rfl, rfl, hne, rfl⟩
    · simp only [hstrip, Bool.false_eq_true, if_false] at hfail ⊢
      by_cases hchunks : (chunk_document text).isEmpty
      · simp only [hchunks, if_true] at hfail ⊢
        rw [Option.some_inj] at hfail
        subst hfail
        refine ⟨_, find_updDoc _ (fun x => rfl) (find_updDoc _ (fun x => rfl)
          (find_updDoc _ (fun x => rfl) hdoc)), rfl, rfl, hne, rfl⟩
      · simp only [hchunks, Bool.false_eq_true, if_false] at hfail ⊢
        rcases hemb : embed ((chunk_document text).map fun c => c.content)
          with eE | embs
        · rw [hemb] at hfail ⊢
          dsimp only at hfail ⊢
          rw [Option.some_inj] at hfail
          subst hfail
          refine ⟨_, find_updDoc _ (fun x => rfl) (find_updDoc _ (fun x => rfl)
            (find_updDoc _ (fun x => rfl) hdoc)), rfl, rfl, hne, rfl⟩
        · rw [hemb] at hfail ⊢
          dsimp only at hfail ⊢
          rcases hup : upsert (chunk_document text) embs with eU | ids
          · rw [hup] at hfail
            dsimp only at hfail ⊢
            rw [Option.some_inj] at hfail
            subst hfail
            refine ⟨_, find_updDoc _ (fun x => rfl) (find_updDoc _ (fun x => rfl)
              (find_updDoc _ (fun x => rfl) hdoc)), rfl, rfl, hne, rfl⟩
          · rw [hup] at hfail
            dsimp only at hfail ⊢
            rcases hper : persist with ⟨eP, k⟩ | u
            · rw [hper] at hfail
              dsimp only at hfail ⊢
              rw [Option.some_inj] at hfail
              subst hfail
              refine ⟨_, find_updDoc _ (fun x => rfl) (find_updDoc _ (fun x => rfl)
                (find_updDoc _ (fun x => rfl) hdoc)), rfl, rfl, hne, rfl⟩
            · rw [hper] at hfail
              exact absurd hfail (by simp)

/-- C2: whenever any of the pipeline steps 1-5 fails with message `e`
(`pipelineError` observes exactly the branch structure of
`process_document`), the processed document ends with `status='failed'`
and `error_message = e` (non-empty when the exception's message is), the
exception does not propagate (`process_document` is total and returns the
new state), and the owning collection's aggregate record — in particular
its `chunk_count` — is unchanged from before the attempt. -/
theorem C2_failure_marks_document (st : KBState) (docId : Nat)
    (extract : Except (List Char) (List Char × Nat))
    (embed : List (List Char) → Except (List Char) (List (List ℚ)))
    (upsert : List Chunk → List (List ℚ) → Except (List Char) (List (List Char)))
    (persist : Except (List Char × Nat) Unit)
    (e : List Char) (d : DocRec)
    (hdoc : st.docs.find? (fun x => x.did = docId) = some d)
    (hfail : pipelineError extract embed upsert persist = some e)
    (hne : e ≠ []) :
    ∃ d', (process_document st docId extract embed upsert persist).docs.find?
        (fun x => x.did = docId) = some d' ∧
      d'.status = "failed".toList ∧ d'.error_message = e ∧ d'.error_message ≠ [] ∧
      (process_document st docId extract embed upsert persist).expert =
        st.expert :=
  processDocument_fail_state st docId extract embed upsert persist e d hdoc
    hfail hne

def c2doc : DocRec := ⟨7, "pending".toList, [], 0, 0⟩

def c2st : KBState := ⟨⟨0, 0, false⟩, [c2doc], []⟩

/-- C2 witness: a pending document whose text extraction raises. -/
theorem C2_failure_marks_document_witness :
    ∃ d', (process_document c2st 7 (.error "boom".toList) (fun _ => .ok [])
        (fun _ _ => .ok []) (.ok ())).docs.find?
        (fun x => x.did = 7) = some d' ∧
      d'.status = "failed".toList ∧ d'.error_message = "boom".toList ∧
      d'.error_message ≠ [] ∧
      (process_document c2st 7 (.error "boom".toList) (fun _ => .ok [])
        (fun _ _ => .ok []) (.ok ())).expert = c2st.expert :=
  C2_failure_marks_document c2st 7 (.error "boom".toList) (fun _ => .ok [])
    (fun _ _ => .ok []) (.ok ()) "boom".toList c2doc (by decide) rfl (by decide)

/-! ### C9 -/

/-- On any pipeline failure `process_document` leaves the expert record
untouched. -/
theorem processDocument_fail_expert (st : KBState) (docId : Nat)
    (extract : Except (List Char) (List Char × Nat))
    (embed : List (List Char) → Except (List Char) (List (List ℚ)))
    (upsert : List Chunk → List (List ℚ) → Except (List Char) (List (List Char)))
    (persist : Except (List Char × Nat) Unit) (e : List Char)
    (hfail : pipelineError extract embed upsert persist = some e) :
    (process_document st docId extract embed upsert persist).expert =
      st.expert := by
  rw [process_document.eq_def]
  split
  · rfl
  · dsimp only
    rcases extract with e0 | ⟨text, pc⟩
    · rfl
    · rw [pipelineError.eq_def] at hfail
      dsimp only at hfail
      by_cases hstrip : (pyStrip text).isEmpty
      · simp only [hstrip, if_true]
        rfl
      · simp only [hstrip, Bool.false_eq_true, if_false] at hfail ⊢
        by_cases hchunks : (chunk_document text).isEmpty
        · simp only [hchunks, if_true]
          rfl
        · simp only [hchunks, Bool.false_eq_true, if_false] at hfail ⊢
          rcases hemb : embed ((chunk_document text).map fun c => c.content)
            with eE | embs
          · simp only [hemb]
            rfl
          · simp only [hemb] at hfail ⊢
            rcases hup : upsert (chunk_document text) embs with eU | ids
            · simp only [hup]
              rfl
            · simp only [hup] at hfail ⊢
              rcases hper : persist with ⟨eP, k⟩ | u
              · simp only [hper]
                rfl
              · simp only [hper] at hfail
                exact absurd hfail (by simp)

/-- Success behaviour of `process_document` (step 7): the expert record is
the from-scratch recomputation over the final document list. -/
theorem processDocument_success_expert (st : KBState) (docId : Nat)
    (extract : Except (List Char) (List Char × Nat))
    (embed : List (List Char) → Except (List Char) (List (List ℚ)))
    (upsert : List Chunk → List (List ℚ) → Except (List Char) (List (List Char)))
    (persist : Except (List Char × Nat) Unit) (d : DocRec)
    (hdoc : st.docs.find? (fun x => x.did = docId) = some d)
    (hnone : pipelineError extract embed upsert persist = none) :
    (process_document st docId extract embed upsert persist).expert =
      update_counts (process_document st docId extract embed upsert persist).docs := by
  rw [process_document.eq_def, hdoc]
  dsimp only
  rcases extract with e0 | ⟨text, pc⟩
  · rw [pipelineError.eq_def] at hnone
    exact absurd hnone (by simp)
  · rw [pipelineError.eq_def] at hnone
    dsimp only at hnone
    by_cases hstrip : (pyStrip text).isEmpty
    · simp only [hstrip, if_true] at hnone
      exact absurd hnone (by simp)
    · simp only [hstrip, Bool.false_eq_true, if_false] at hnone ⊢
      by_cases hchunks : (chunk_document text).isEmpty
      · simp only [hchunks, if_true] at hnone
        exact absurd hnone (by simp)
      · simp only [hchunks, Bool.false_eq_true, if_false] at hnone ⊢
        rcases hemb : embed ((chunk_document text).map fun c => c.content)
          with eE | embs
        · rw [hemb] at hnone
          exact absurd hnone (by simp)
        · rw [hemb] at hnone ⊢
          dsimp only at hnone ⊢
          rcases hup : upsert (chunk_document text) embs with eU | ids
          · rw [hup] at hnone
            exact absurd hnone (by simp)
          · rw [hup] at hnone
            dsimp only at hnone ⊢
            rcases hper : persist with ⟨eP, k⟩ | u
            · rw [hper] at hnone
              exact absurd hnone (by simp)
            · rfl

def c9st : KBState := ⟨⟨1, 3, true⟩, [⟨7, "completed".toList, [], 2, 3⟩], []⟩

/-- C9, counterexample: the claim says counts are recomputed from scratch
after EVERY membership-changing operation, including "a document
reprocessed".  A reprocess whose pipeline fails deletes the old chunks and
moves the document out of `completed`, but `update_counts` is only called
on the success path, so the collection keeps its stale counts
(`⟨1, 3, true⟩` although the from-scratch recomputation is
`⟨0, 0, false⟩`). -/
theorem C9_reprocess_failure_counterexample :
    (reprocess_document c9st 7 (.error "boom".toList) (fun _ => .ok [])
      (fun _ _ => .ok []) (.ok ())).expert ≠
    update_counts (reprocess_document c9st 7 (.error "boom".toList)
      (fun _ => .ok []) (fun _ _ => .ok []) (.ok ())).docs := by
  decide

/-- C9, amended claim: after a document is deleted, after a document is
processed to completion, and after a reprocess whose pipeline succeeds,
the collection's `document_count`/`chunk_count` are the from-scratch
recomputation over its completed documents and
`is_indexed == (chunk_count > 0)`; a reprocess whose pipeline fails
leaves the collection record unchanged (stale) instead. -/
theorem C9_counts_recomputed_amended :
    (∀ st docId, (delete_document st docId).expert =
        update_counts (delete_document st docId).docs ∧
      (delete_document st docId).expert.is_indexed =
        decide (0 < (delete_document st docId).expert.chunk_count)) ∧
    (∀ st docId extract embed upsert persist d,
      st.docs.find? (fun x => x.did = docId) = some d →
      pipelineError extract embed upsert persist = none →
      (process_document st docId extract embed upsert persist).expert =
        update_counts (process_document st docId extract embed upsert persist).docs ∧
      (process_document st docId extract embed upsert persist).expert.is_indexed =
        decide (0 <
          (process_document st docId extract embed upsert persist).expert.chunk_count)) ∧
    (∀ st docId extract embed upsert persist d,
      st.docs.find? (fun x => x.did = docId) = some d →
      pipelineError extract embed upsert persist = none →
      (reprocess_document st docId extract embed upsert persist).expert =
        update_counts (reprocess_document st docId extract embed upsert persist).docs) ∧
    (∀ st docId extract embed upsert persist e d,
      st.docs.find? (fun x => x.did = docId) = some d →
      pipelineError extract embed upsert persist = some e →
      (reprocess_document st docId extract embed upsert persist).expert =
        st.expert) := by
  refine ⟨?_, ?_, ?_, ?_⟩
  · intro st docId
    exact ⟨rfl, rfl⟩
  · intro st docId extract embed upsert persist d hdoc hnone
    have h := processDocument_success_expert st docId extract embed upsert
      persist d hdoc hnone
    refine ⟨h, ?_⟩
    rw [h]
    rfl
  · intro st docId extract embed upsert persist d hdoc hnone
    rw [reprocess_document.eq_def, hdoc]
    dsimp only
    exact processDocument_success_expert _ docId extract embed upsert persist _
      (find_updDoc _ (fun x => rfl) hdoc) hnone
  · intro st docId extract embed upsert persist e d hdoc hfail
    rw [reprocess_document.eq_def, hdoc]
    dsimp only
    exact processDocument_fail_expert _ docId extract embed upsert persist e
      hfail

def c9extract : Except (List Char) (List Char × Nat) :=
  .ok ("Hello world, a fine document.".toList, 1)

/-- C9 witness: a successful reprocess of a completed document on a
concrete state recomputes the counts. -/
theorem C9_counts_recomputed_witness :
    (reprocess_document c9st 7 c9extract
      (fun ts => .ok (ts.map fun _ => [1]))
      (fun cs _ => .ok (cs.map fun _ => "id".toList)) (.ok ())).expert =
    update_counts (reprocess_document c9st 7 c9extract
      (fun ts => .ok (ts.map fun _ => [1]))
      (fun cs _ => .ok (cs.map fun _ => "id".toList)) (.ok ())).docs :=
  C9_counts_recomputed_amended.2.2.1 c9st 7 c9extract
    (fun ts => .ok (ts.map fun _ => [1]))
    (fun cs _ => .ok (cs.map fun _ => "id".toList)) (.ok ())
    ⟨7, "completed".toList, [], 2, 3⟩ (by decide) (by decide)

/-! ### C10 -/

theorem snd_mem_of_mem_enum {α : Type} {p : Nat × α} {l : List α}
    (h : p ∈ l.enum) : p.2 ∈ l := by
  have := List.mem_map_of_mem Prod.snd h
  rwa [List.enum_map_snd] at this

/-- C10: a chunk upserted with no page number is stored with metadata
`page_number = 0` (`chunk.get('page_number') or 0`); every
`query_collection` result row reports exactly its stored entry's metadata
page number (so such chunks come back as `0`, never null); and in the RAG
answer a page number of `0` is falsy, so the context block carries no
` (Seite n)` info, while the source citation carries the raw `0`
(`0` is treated as "no page"). -/
theorem C10_no_page_stored_as_zero :
    (∀ c : Chunk, c.page_number = none → chunkMetaPage c = 0) ∧
    (∀ (docId : Nat) (chunks : List Chunk) (embeddings : List (List ℚ))
        (uuids : List (List Char)),
      ∀ e ∈ addChunksEntries docId chunks embeddings uuids,
        ∃ c ∈ chunks, e.page_number = chunkMetaPage c) ∧
    (∀ (dist : List ℚ → List ℚ → ℚ) (store : List ChromaEntry) (q : List ℚ)
        (maxr : Nat) (t : ℚ) (minr : Nat),
      ∀ r ∈ query_collection dist store q maxr t minr,
        ∃ e ∈ store, r.content = e.document ∧ r.page_number = e.page_number ∧
          r.document_id = e.document_id) ∧
    pageInfo 0 = [] ∧
    (∀ (i : Nat) (name content : List Char),
      contextPart i name 0 content =
        "[Quelle ".toList ++ (toString (i + 1)).toList ++ ": ".toList ++ name ++
          "]\n".toList ++ content) ∧
    (∀ (resolve : Nat → List Char) (c : RChunk),
      (mkSourceCit resolve c).page_number = c.page_number) := by
  refine ⟨?_, ?_, ?_, rfl, ?_, ?_⟩
  · intro c hc
    rw [chunkMetaPage, hc]
  · intro docId chunks embeddings uuids e he
    rw [addChunksEntries] at he
    rw [List.mem_map] at he
    rcases he with ⟨p, hp, hpe⟩
    refine ⟨p.2.1, ?_, ?_⟩
    · have h2 := snd_mem_of_mem_enum hp
      exact (List.of_mem_zip h2).1
    · rw [← hpe]
  · intro dist store q maxr t minr r hr
    have hcand : r ∈ queryCandidates dist store q maxr := by
      rw [query_collection] at hr
      by_cases hif : ((queryCandidates dist store q maxr).filter
          (fun c => c.distance ≤ t)).length < minr ∧
          queryCandidates dist store q maxr ≠ []
      · rw [if_pos hif] at hr
        exact (List.take_sublist _ _).mem hr
      · rw [if_neg hif] at hr
        exact List.mem_of_mem_filter hr
    rw [queryCandidates, List.mem_map] at hcand
    rcases hcand with ⟨p, hp, hpr⟩
    have hst : p ∈ store.map fun e => (e, dist e.embedding q) := by
      have h1 := (List.take_sublist maxr _).mem hp
      rw [List.mem_insertionSort] at h1
      exact h1
    rw [List.mem_map] at hst
    rcases hst with ⟨e, he, hpe⟩
    refine ⟨e, he, ?_, ?_, ?_⟩ <;> rw [← hpr, ← hpe] <;> rfl
  · intro i name content
    rw [contextPart, pageInfo]
    simp
  · intro resolve c
    rfl

def c10e0 : ChromaEntry := ⟨"id0".toList, [1], "doc text".toList, 5, 0, 0⟩

def c10store : List ChromaEntry := [c10e0]

/-- C10 witness: one stored entry with page metadata `0` retrieved by a
query reports page `0`. -/
theorem C10_no_page_stored_as_zero_witness :
    ∃ e ∈ c10store, (toRChunk (c10e0, 0)).content = e.document ∧
      (toRChunk (c10e0, 0)).page_number = e.page_number ∧
      (toRChunk (c10e0, 0)).document_id = e.document_id :=
  C10_no_page_stored_as_zero.2.2.1 (fun _ _ => 0) c10store [] 10 1 1 (toRChunk (c10e0, 0))
    (by
      rw [show query_collection (fun _ _ => 0) c10store [] 10 1 1 =
        [toRChunk (c10e0, 0)] from rfl]
      exact List.mem_singleton.mpr rfl)
